import Mathlib

/-!
Verification of the range-filter (data-skipping) subsystem: the
predicate-to-statistics rewriting engine (`build_verifiable_expr`) and the
`RangeFilter` facade that evaluates the rewritten predicate against
per-block min/max/null-count statistics.

The expression tree, schema, and statistics mirror the structures used by
`src/query/src/datasources/index/range_filter_test.rs`; the builder and
evaluator themselves are modelled from the specification, since the
implementation file is not part of the sources provided.
-/

namespace RangeIndex

/-- Width tag of an integral value, mirroring `DataType::Int32` / `Int64`.
The engine compares integral values numerically regardless of width. -/
inductive IntKind where
  | i32
  | i64
deriving Repr, DecidableEq

/-- Modelled from the spec: a typed literal value (`DataValue` in the source
test). `null` stands for `DataValue::Null`; integral values carry a width
tag; strings model `DataValue::String`/byte-string literals. -/
inductive DataValue where
  | null
  | intV (k : IntKind) (v : Int)
  | strV (s : String)
  | boolV (b : Bool)
deriving Repr, DecidableEq

/-- Modelled from the spec: the predicate AST (`Expression` in the planner):
columns, literals, unary operators (negation), binary operators tagged by
name (comparisons, `and`, `or`, and opaque ones such as `like`), and named
scalar-function calls (`isNull`, `isNotNull`, or opaque). -/
inductive Expr where
  | column (name : String)
  | literal (v : DataValue)
  | unary (op : String) (e : Expr)
  | binary (op : String) (l r : Expr)
  | scalarFn (op : String) (args : List Expr)
deriving Repr

/-- Data type declared for a schema field. The filter never checks value
types against it; it only resolves names to ordinals. -/
inductive DataType where
  | int32
  | int64
  | string
deriving Repr, DecidableEq

/-- A schema field: name, declared type, nullability (`DataField`). -/
structure DataField where
  name : String
  dtype : DataType
  nullable : Bool
deriving Repr, DecidableEq

/-- A schema is an ordered field list with name-to-ordinal lookup. -/
abbrev Schema := List DataField

/-- Ordinal of the field with the given name, or `none` (`schema lookup`). -/
def fieldIndex (schema : Schema) (n : String) : Option Nat :=
  match schema with
  | [] => none
  | f :: t => if f.name = n then some 0 else (fieldIndex t n).map (· + 1)

/-- Per-column statistics of one block (`ColStats` in the source test):
minimum, maximum, null count.  A minimum/maximum of `null` represents
"no non-null value observed". -/
structure ColStats where
  min : DataValue
  max : DataValue
  null_count : Nat
deriving Repr, DecidableEq

/-- Block statistics: column ordinal to `ColStats`; a column may be absent
if statistics were not collected for it (`BlockStats`). -/
abbrev BlockStats := Nat → Option ColStats

/-- Which statistic of a column a synthetic stat column refers to. -/
inductive StatKind where
  | smin
  | smax
  | snulls
deriving Repr, DecidableEq

/-- One entry of the stat-column tracker: original column name, its schema
ordinal, and which statistic is referenced. -/
structure StatCol where
  name : String
  ordinal : Nat
  kind : StatKind
deriving Repr, DecidableEq

/-- The accumulated stat columns of one build pass (`StatColumns`). -/
abbrev StatColumns := List StatCol

/-- Name tag put in front of the original column name to form the synthetic
stat-column name. -/
def kindTag : StatKind → String
  | .smin => "min_"
  | .smax => "max_"
  | .snulls => "nulls_"

/-- Synthetic column name of a stat column (`min_a`, `max_b`, `nulls_a`). -/
def synName (sc : StatCol) : String := kindTag sc.kind ++ sc.name

/-- The comparison operator names the builder understands. -/
def cmpOps : List String := ["<", "<=", ">", ">=", "=", "!="]

/-- Mirror of a comparison operator, used to rewrite `v OP c` as
`c OP' v` (`<` swaps with `>`, `<=` with `>=`, equality unchanged). -/
def mirrorOp : String → String
  | "<" => ">"
  | ">" => "<"
  | "<=" => ">="
  | ">=" => "<="
  | op => op

/-- Modelled from the spec: the shape analysis for bound propagation.  A
column possibly wrapped in unary negations is "boundable"; the result is
the number of negations together with the core column name. -/
def boundShape : Expr → Option (Nat × String)
  | .column n => some (0, n)
  | .unary "-" e => (boundShape e).map (fun p => (p.1 + 1, p.2))
  | _ => none

/-- Wrap `k` unary negations around an expression. -/
def wrapNegs (k : Nat) (e : Expr) : Expr :=
  match k with
  | 0 => e
  | k + 1 => .unary "-" (wrapNegs k e)

/-- Statistic kind giving the lower bound of a column under `k` negations:
`min` for an even number of negations, `max` for an odd number (negation
swaps the roles of the bounds). -/
def lowerKind (k : Nat) : StatKind := if k % 2 = 0 then .smin else .smax

/-- Statistic kind giving the upper bound under `k` negations. -/
def upperKind (k : Nat) : StatKind := if k % 2 = 0 then .smax else .smin

/-- The constant `true` expression every untranslatable shape degrades to. -/
def trueLit : Expr := .literal (.boolV true)

/-- The constant `false` expression a bare null-literal predicate becomes. -/
def falseLit : Expr := .literal (.boolV false)

/-- Construction-time failure of the builder: the schema-mismatch error
raised when a column referenced by a translatable comparison is absent. -/
inductive BuildErr where
  | columnNotFound (name : String)
deriving Repr, DecidableEq

/-- Modelled from the spec: rewrite one comparison whose one side is a
boundable expression (`k` negations around column `n`) and whose other
side is the literal `v`, the operator already mirrored so the boundable
side is on the left.  Ordered comparisons substitute the one-sided bound;
equality uses both bounds conjunctively, inequality disjunctively.  The
column is resolved against the schema here; an absent column raises the
schema-mismatch error.  `lowCol` is the stat column holding the lower
bound of `k` negations of column `n` at ordinal `i`. -/
def lowCol (n : String) (i : Nat) (k : Nat) : StatCol := ⟨n, i, lowerKind k⟩

/-- The stat column holding the upper bound of `k` negations of column
`n` at ordinal `i`. -/
def uppCol (n : String) (i : Nat) (k : Nat) : StatCol := ⟨n, i, upperKind k⟩

/-- The bound expression substituted for the lower bound of `k` negations
of column `n`. -/
def lowExpr (n : String) (i : Nat) (k : Nat) : Expr :=
  wrapNegs k (.column (synName (lowCol n i k)))

/-- The bound expression substituted for the upper bound. -/
def uppExpr (n : String) (i : Nat) (k : Nat) : Expr :=
  wrapNegs k (.column (synName (uppCol n i k)))

def buildBoundCmp (schema : Schema) (op : String) (k : Nat) (n : String)
    (v : DataValue) : Except BuildErr (Expr × StatColumns) :=
  match fieldIndex schema n with
  | none => .error (.columnNotFound n)
  | some i =>
    match op with
    | "<" => .ok (.binary "<" (lowExpr n i k) (.literal v), [lowCol n i k])
    | "<=" => .ok (.binary "<=" (lowExpr n i k) (.literal v), [lowCol n i k])
    | ">" => .ok (.binary ">" (uppExpr n i k) (.literal v), [uppCol n i k])
    | ">=" => .ok (.binary ">=" (uppExpr n i k) (.literal v), [uppCol n i k])
    | "=" => .ok (.binary "and"
        (.binary "<=" (lowExpr n i k) (.literal v))
        (.binary ">=" (uppExpr n i k) (.literal v)),
        [lowCol n i k, uppCol n i k])
    | "!=" => .ok (.binary "or"
        (.binary "!=" (lowExpr n i k) (.literal v))
        (.binary "!=" (uppExpr n i k) (.literal v)),
        [lowCol n i k, uppCol n i k])
    | _ => .ok (trueLit, [])

/-- Modelled from the spec: rewrite one comparison node.  If the left side
is boundable and the right a literal, rewrite directly; if the left is a
literal and the right boundable, mirror the operator; any other shape
degrades to constant `true`. -/
def buildCmp (schema : Schema) (op : String) (l r : Expr) :
    Except BuildErr (Expr × StatColumns) :=
  match boundShape l, r with
  | some (k, n), .literal v => buildBoundCmp schema op k n v
  | _, _ =>
    match l, boundShape r with
    | .literal v, some (k, n) => buildBoundCmp schema (mirrorOp op) k n v
    | _, _ => .ok (trueLit, [])

/-- Modelled from the spec: rewrite one scalar-function call node:
`isNull(c)` becomes `nulls_c > 0`, `isNotNull(c)` becomes
`isNotNull(min_c)`, and any other call is opaque and degrades to the
constant `true`. -/
def buildScalar (schema : Schema) (op : String) (args : List Expr) :
    Except BuildErr (Expr × StatColumns) :=
  match op, args with
  | "isNull", [.column n] =>
    (match fieldIndex schema n with
    | none => .error (.columnNotFound n)
    | some i =>
      .ok (.binary ">" (.column (synName ⟨n, i, .snulls⟩))
        (.literal (.intV .i64 0)), [⟨n, i, .snulls⟩]))
  | "isNotNull", [.column n] =>
    (match fieldIndex schema n with
    | none => .error (.columnNotFound n)
    | some i =>
      .ok (.scalarFn "isNotNull" [.column (synName ⟨n, i, .smin⟩)],
        [⟨n, i, .smin⟩]))
  | _, _ => .ok (trueLit, [])

/-- Modelled from the spec: `build_verifiable_expr` — recursively rewrite a
predicate into a verifiable expression over synthetic stat columns plus
the list of stat columns it references.  A bare null literal becomes
constant `false`; `and`/`or` distribute; comparisons rewrite through
`buildCmp`; `isNull(c)` becomes `nulls_c > 0`; `isNotNull(c)` becomes
`isNotNull(min_c)`; every other shape degrades to constant `true`. -/
def build_verifiable_expr (schema : Schema) :
    Expr → Except BuildErr (Expr × StatColumns)
  | .literal .null => .ok (falseLit, [])
  | .binary "and" l r => do
    let a ← build_verifiable_expr schema l
    let b ← build_verifiable_expr schema r
    .ok (.binary "and" a.1 b.1, a.2 ++ b.2)
  | .binary "or" l r => do
    let a ← build_verifiable_expr schema l
    let b ← build_verifiable_expr schema r
    .ok (.binary "or" a.1 b.1, a.2 ++ b.2)
  | .binary "<" l r => buildCmp schema "<" l r
  | .binary "<=" l r => buildCmp schema "<=" l r
  | .binary ">" l r => buildCmp schema ">" l r
  | .binary ">=" l r => buildCmp schema ">=" l r
  | .binary "=" l r => buildCmp schema "=" l r
  | .binary "!=" l r => buildCmp schema "!=" l r
  | .scalarFn op args => buildScalar schema op args
  | _ => .ok (trueLit, [])

/-- Evaluation-time failure of the scalar evaluator. -/
inductive EvalErr where
  | typeMismatch
  | unsupportedFn
deriving Repr, DecidableEq

/-- Integral comparison (numeric, width-ignoring). -/
def cmpInt (a b : Int) : Ordering :=
  if a < b then .lt else if b < a then .gt else .eq

/-- String comparison under the lexicographic order. -/
def cmpStr (a b : String) : Ordering :=
  if a < b then .lt else if b < a then .gt else .eq

/-- SQL comparison kernel of the scalar evaluator: `null` on either side
compares to "unknown" (`none`); integral values compare numerically across
widths; strings compare lexicographically; any other pair of classes is a
genuine type mismatch and fails. -/
def cmpVal : DataValue → DataValue → Except EvalErr (Option Ordering)
  | .null, _ => .ok none
  | _, .null => .ok none
  | .intV _ a, .intV _ b => .ok (some (cmpInt a b))
  | .strV a, .strV b => .ok (some (cmpStr a b))
  | _, _ => .error .typeMismatch

/-- Whether a comparison operator holds of an ordering outcome. -/
def opHolds (op : String) (o : Ordering) : Bool :=
  match op with
  | "<" => o = .lt
  | "<=" => o = .lt || o = .eq
  | ">" => o = .gt
  | ">=" => o = .gt || o = .eq
  | "=" => o = .eq
  | "!=" => o = .lt || o = .gt
  | _ => false

/-- Lift a comparison outcome to a value: an unknown comparison (a `null`
operand) yields `null`, otherwise a boolean. -/
def ordToVal (op : String) : Option Ordering → DataValue
  | none => .null
  | some o => .boolV (opHolds op o)

/-- Unary negation of a value: `null` propagates, integral values negate,
anything else is a type mismatch. -/
def negVal : DataValue → Except EvalErr DataValue
  | .null => .ok .null
  | .intV k v => .ok (.intV k (-v))
  | _ => .error .typeMismatch

/-- Three-valued conjunction over boolean-or-null values (Kleene `and`);
a non-boolean non-null operand is a type mismatch. -/
def kleeneAnd : DataValue → DataValue → Except EvalErr DataValue
  | .boolV a, .boolV b => .ok (.boolV (a && b))
  | .boolV false, .null => .ok (.boolV false)
  | .null, .boolV false => .ok (.boolV false)
  | .boolV true, .null => .ok .null
  | .null, .boolV true => .ok .null
  | .null, .null => .ok .null
  | _, _ => .error .typeMismatch

/-- Three-valued disjunction over boolean-or-null values (Kleene `or`). -/
def kleeneOr : DataValue → DataValue → Except EvalErr DataValue
  | .boolV a, .boolV b => .ok (.boolV (a || b))
  | .boolV true, .null => .ok (.boolV true)
  | .null, .boolV true => .ok (.boolV true)
  | .boolV false, .null => .ok .null
  | .null, .boolV false => .ok .null
  | .null, .null => .ok .null
  | _, _ => .error .typeMismatch

/-- One row of bound values: column name to value. -/
abbrev Row := String → DataValue

/-- Semantics of expression shapes the evaluator has no built-in rule for
(opaque scalar calls such as `like`, unknown operators): an arbitrary
interpretation supplied as a parameter. -/
abbrev Oracle := Row → Expr → Except EvalErr DataValue

/-- Modelled from the spec: the scalar evaluator — executes an expression
against one row of bound values and returns a value or fails.  Comparisons
use SQL three-valued semantics; `and`/`or` are Kleene connectives; `-` is
numeric negation; `isNull`/`isNotNull` on a column test the bound value;
every other shape is delegated to the oracle. -/
def evalExpr (oracle : Oracle) (row : Row) : Expr → Except EvalErr DataValue
  | .column n => .ok (row n)
  | .literal v => .ok v
  | .unary "-" e => do
    let v ← evalExpr oracle row e
    negVal v
  | .binary "and" l r => do
    let a ← evalExpr oracle row l
    let b ← evalExpr oracle row r
    kleeneAnd a b
  | .binary "or" l r => do
    let a ← evalExpr oracle row l
    let b ← evalExpr oracle row r
    kleeneOr a b
  | .binary "<" l r => do
    let a ← evalExpr oracle row l
    let b ← evalExpr oracle row r
    let c ← cmpVal a b
    .ok (ordToVal "<" c)
  | .binary "<=" l r => do
    let a ← evalExpr oracle row l
    let b ← evalExpr oracle row r
    let c ← cmpVal a b
    .ok (ordToVal "<=" c)
  | .binary ">" l r => do
    let a ← evalExpr oracle row l
    let b ← evalExpr oracle row r
    let c ← cmpVal a b
    .ok (ordToVal ">" c)
  | .binary ">=" l r => do
    let a ← evalExpr oracle row l
    let b ← evalExpr oracle row r
    let c ← cmpVal a b
    .ok (ordToVal ">=" c)
  | .binary "=" l r => do
    let a ← evalExpr oracle row l
    let b ← evalExpr oracle row r
    let c ← cmpVal a b
    .ok (ordToVal "=" c)
  | .binary "!=" l r => do
    let a ← evalExpr oracle row l
    let b ← evalExpr oracle row r
    let c ← cmpVal a b
    .ok (ordToVal "!=" c)
  | .scalarFn "isNull" [.column n] =>
    .ok (.boolV (row n matches .null))
  | .scalarFn "isNotNull" [.column n] =>
    .ok (.boolV !(row n matches .null))
  | e => oracle row e

/-- The oracle used when evaluating rewritten expressions: rewritten trees
reference no opaque shapes, so any oracle call is a failure. -/
def noOracle : Oracle := fun _ _ => .error .unsupportedFn

/-- Value bound to a synthetic stat column from block statistics (the
ordinal is looked up; the fallback for an absent entry is never reached
because evaluation is guarded on presence of every needed entry). -/
def statVal (stats : BlockStats) (sc : StatCol) : DataValue :=
  match stats sc.ordinal with
  | none => .null
  | some cs =>
    match sc.kind with
    | .smin => cs.min
    | .smax => cs.max
    | .snulls => .intV .i64 cs.null_count

/-- The single synthetic row binding each referenced stat column's name to
its value from the block statistics. -/
def synRow (scs : StatColumns) (stats : BlockStats) : Row := fun s =>
  match scs.find? (fun sc => synName sc == s) with
  | none => .null
  | some sc => statVal stats sc

/-- Modelled from the spec: the public facade — the verifiable expression
and the stat columns it references, built once per predicate. -/
structure RangeFilter where
  verExpr : Expr
  statCols : StatColumns

/-- Modelled from the spec: `RangeFilter::try_create` — run the builder
once over the predicate and schema; fails only on the builder's
schema-mismatch error. -/
def RangeFilter.try_create (expr : Expr) (schema : Schema) :
    Except BuildErr RangeFilter :=
  (build_verifiable_expr schema expr).map (fun p => ⟨p.1, p.2⟩)

/-- Modelled from the spec: `RangeFilter::eval` — if any needed statistic
entry is absent the decision is forced to `true` (scan); otherwise the
stat values are bound into one synthetic row and the scalar evaluator runs
the verifiable expression.  A boolean result is the verdict; an
indeterminate (`null`) result means "must scan"; evaluator failures
propagate. -/
def RangeFilter.eval (f : RangeFilter) (stats : BlockStats) :
    Except EvalErr Bool :=
  if f.statCols.all (fun sc => (stats sc.ordinal).isSome) then
    match evalExpr noOracle (synRow f.statCols stats) f.verExpr with
    | .ok (.boolV b) => .ok b
    | .ok _ => .ok true
    | .error e => .error e
  else .ok true

mutual

/-- All column names referenced anywhere in an expression. -/
def columnsOf : Expr → List String
  | .column n => [n]
  | .literal _ => []
  | .unary _ e => columnsOf e
  | .binary _ l r => columnsOf l ++ columnsOf r
  | .scalarFn _ args => columnsOfList args

/-- All column names referenced in a list of expressions. -/
def columnsOfList : List Expr → List String
  | [] => []
  | e :: es => columnsOf e ++ columnsOfList es

end

/-- `a` compares less-or-equal to `b` under the evaluator's comparison
kernel (in particular the comparison is defined and determinate). -/
def cmpLE (a b : DataValue) : Prop :=
  cmpVal a b = .ok (some .lt) ∨ cmpVal a b = .ok (some .eq)

/-- The block statistics are truthful for a block of rows under a schema:
for every column ordinal carrying statistics, every non-null value of that
column in the block lies between the recorded minimum and maximum, a null
value in the block is reflected by a positive null count, and a column
with no non-null value records null bounds ("no non-null value
observed"). -/
def StatsConsistent (schema : Schema) (stats : BlockStats)
    (block : List Row) : Prop :=
  ∀ i fld cs, schema[i]? = some fld → stats i = some cs →
    (∀ r ∈ block, r fld.name ≠ .null →
      cmpLE cs.min (r fld.name) ∧ cmpLE (r fld.name) cs.max) ∧
    ((∃ r ∈ block, r fld.name = .null) → 0 < cs.null_count) ∧
    ((∀ r ∈ block, r fld.name = .null) → cs.min = .null ∧ cs.max = .null)

/-- Row `r` satisfies predicate `P` (under an interpretation of opaque
shapes): the scalar evaluator returns boolean `true` on it. -/
def RowSatisfies (oracle : Oracle) (P : Expr) (r : Row) : Prop :=
  evalExpr oracle r P = .ok (.boolV true)

/-- Evaluating `P` over every row of the block succeeds (the block-level
evaluation of the predicate does not fail). -/
def BlockEvalOk (oracle : Oracle) (P : Expr) (block : List Row) : Prop :=
  ∀ r ∈ block, ∃ v, evalExpr oracle r P = .ok v

/-- Iterated unary negation at the value level: semantics of a stack of
`k` negation nodes. -/
def applyNegs : Nat → DataValue → Except EvalErr DataValue
  | 0, v => .ok v
  | k + 1, v => do
    let w ← applyNegs k v
    negVal w

/-- A value the verifiable expression may evaluate to: boolean or null. -/
def IsBoolish (v : DataValue) : Prop :=
  v = .null ∨ ∃ b, v = .boolV b

/-- The schema and statistics of the running example of the source test:
`a: Int64 not null` at ordinal 0, `b: Int32 not null` at ordinal 1. -/
def testSchema : Schema := [⟨"a", .int64, false⟩, ⟨"b", .int32, false⟩]

/-- Block statistics of the source test: `a ∈ [1, 20]` with one null,
`b ∈ [3, 10]` with no null, both stored as `Int32` values. -/
def testStats : BlockStats := fun n =>
  match n with
  | 0 => some ⟨.intV .i32 1, .intV .i32 20, 1⟩
  | 1 => some ⟨.intV .i32 3, .intV .i32 10, 0⟩
  | _ => none

/-- Test predicate `a < 1 and b > 3`. -/
def predLtGt : Expr :=
  .binary "and" (.binary "<" (.column "a") (.literal (.intV .i32 1)))
    (.binary ">" (.column "b") (.literal (.intV .i32 3)))

/-- Test predicate `1 > -a or 3 >= b`. -/
def predNegOr : Expr :=
  .binary "or" (.binary ">" (.literal (.intV .i32 1)) (.unary "-" (.column "a")))
    (.binary ">=" (.literal (.intV .i32 3)) (.column "b"))

/-- Test predicate `a = 1 and b != 3`. -/
def predEqNe : Expr :=
  .binary "and" (.binary "=" (.column "a") (.literal (.intV .i32 1)))
    (.binary "!=" (.column "b") (.literal (.intV .i32 3)))

/-- Test predicate `b >= 0 and c like '%sys%'` (opaque `like` call on a
column absent from `testSchema`). -/
def predLikeAnd : Expr :=
  .binary "and" (.binary ">=" (.column "b") (.literal (.intV .i32 0)))
    (.binary "like" (.column "c") (.literal (.strV "%sys%")))

theorem bindOk {e a b : Type} (x : a) (f : a → Except e b) :
    (Except.ok x >>= f) = f x := rfl

theorem cmpInt_lt_iff {a b : Int} : cmpInt a b = .lt ↔ a < b := by
  unfold cmpInt
  split <;> rename_i h
  · simp [h]
  · split <;> rename_i h2 <;> simp <;> omega

theorem cmpInt_gt_iff {a b : Int} : cmpInt a b = .gt ↔ b < a := by
  unfold cmpInt
  split <;> rename_i h
  · simp
    omega
  · split <;> rename_i h2 <;> simp <;> omega

theorem cmpInt_eq_iff {a b : Int} : cmpInt a b = .eq ↔ a = b := by
  unfold cmpInt
  split <;> rename_i h
  · simp
    omega
  · split <;> rename_i h2 <;> simp <;> omega

theorem cmpStr_lt_iff {a b : String} : cmpStr a b = .lt ↔ a < b := by
  unfold cmpStr
  split <;> rename_i h
  · simp [h]
  · split <;> rename_i h2 <;> simp [h, h2]

theorem cmpStr_gt_iff {a b : String} : cmpStr a b = .gt ↔ b < a := by
  unfold cmpStr
  split <;> rename_i h
  · simpa using asymm h
  · split <;> rename_i h2 <;> simpa using h2

theorem cmpStr_eq_iff {a b : String} : cmpStr a b = .eq ↔ a = b := by
  unfold cmpStr
  split <;> rename_i h
  · simp
    exact fun h2 => absurd (h2 ▸ h) (lt_irrefl b)
  · split <;> rename_i h2
    · simp
      exact fun h3 => absurd (h3 ▸ h2) (lt_irrefl b)
    · simp
      exact le_antisymm (not_lt.mp h2) (not_lt.mp h)

/-- C7: a predicate that is exactly a null literal builds to the constant
`false` filter, and evaluating that filter returns `false` for every block
statistics input. -/
theorem null_literal_always_skips (schema : Schema) (stats : BlockStats) :
    RangeFilter.try_create (.literal .null) schema = .ok ⟨falseLit, []⟩ ∧
    RangeFilter.eval ⟨falseLit, []⟩ stats = .ok false :=
  ⟨rfl, rfl⟩

/-- C8: building distributes homomorphically over the boolean connectives:
the verifiable expression of `A and B` is the conjunction of the
verifiable expressions of `A` and `B`, with the referenced stat columns
concatenated, and symmetrically for `or`. -/
theorem build_distributes_over_connectives (schema : Schema) (A B a b : Expr)
    (sa sb : StatColumns)
    (hA : build_verifiable_expr schema A = .ok (a, sa))
    (hB : build_verifiable_expr schema B = .ok (b, sb)) :
    build_verifiable_expr schema (.binary "and" A B) =
      .ok (.binary "and" a b, sa ++ sb) ∧
    build_verifiable_expr schema (.binary "or" A B) =
      .ok (.binary "or" a b, sa ++ sb) := by
  constructor
  · have e1 : build_verifiable_expr schema (.binary "and" A B) =
        (build_verifiable_expr schema A).bind (fun x =>
          (build_verifiable_expr schema B).bind (fun y =>
            Except.ok (.binary "and" x.1 y.1, x.2 ++ y.2))) := rfl
    rw [e1, hA, hB]
    rfl
  · have e2 : build_verifiable_expr schema (.binary "or" A B) =
        (build_verifiable_expr schema A).bind (fun x =>
          (build_verifiable_expr schema B).bind (fun y =>
            Except.ok (.binary "or" x.1 y.1, x.2 ++ y.2))) := rfl
    rw [e2, hA, hB]
    rfl

/-- Closed instance of `build_distributes_over_connectives` at the test
predicates `a < 1` and `b > 3` over the test schema. -/
theorem build_distributes_over_connectives_witness :
    build_verifiable_expr testSchema
        (.binary "and" (.binary "<" (.column "a") (.literal (.intV .i32 1)))
          (.binary ">" (.column "b") (.literal (.intV .i32 3)))) =
      .ok (.binary "and"
        (.binary "<" (.column "min_a") (.literal (.intV .i32 1)))
        (.binary ">" (.column "max_b") (.literal (.intV .i32 3))),
        [⟨"a", 0, .smin⟩] ++ [⟨"b", 1, .smax⟩]) ∧
    build_verifiable_expr testSchema
        (.binary "or" (.binary "<" (.column "a") (.literal (.intV .i32 1)))
          (.binary ">" (.column "b") (.literal (.intV .i32 3)))) =
      .ok (.binary "or"
        (.binary "<" (.column "min_a") (.literal (.intV .i32 1)))
        (.binary ">" (.column "max_b") (.literal (.intV .i32 3))),
        [⟨"a", 0, .smin⟩] ++ [⟨"b", 1, .smax⟩]) :=
  build_distributes_over_connectives testSchema _ _ _ _ _ _ rfl rfl

/-- C2: the builder mirrors `lit > -col` to `-col < lit` and substitutes
the lower bound of `-col`, the negated maximum of `col`; concretely
`1 > -a or 3 >= b` rewrites to `((- max_a) < 1) or (min_b <= 3)`, and with
the test statistics `a ∈ [1, 20]`, `b ∈ [3, 10]` it evaluates to `true`. -/
theorem negation_sign_flip (schema : Schema) (n : String) (i : Nat)
    (v : DataValue) (h : fieldIndex schema n = some i) :
    build_verifiable_expr schema
        (.binary ">" (.literal v) (.unary "-" (.column n))) =
      .ok (.binary "<" (.unary "-" (.column ("max_" ++ n))) (.literal v),
        [⟨n, i, .smax⟩]) ∧
    build_verifiable_expr testSchema predNegOr =
      .ok (.binary "or"
        (.binary "<" (.unary "-" (.column "max_a")) (.literal (.intV .i32 1)))
        (.binary "<=" (.column "min_b") (.literal (.intV .i32 3))),
        [⟨"a", 0, .smax⟩, ⟨"b", 1, .smin⟩]) ∧
    (RangeFilter.try_create predNegOr testSchema).map
      (fun f => f.eval testStats) = .ok (.ok true) := by
  refine ⟨?_, rfl, rfl⟩
  have e1 : build_verifiable_expr schema
      (.binary ">" (.literal v) (.unary "-" (.column n))) =
      buildBoundCmp schema "<" 1 n v := rfl
  rw [e1]
  unfold buildBoundCmp
  rw [h]
  rfl

/-- Closed instance of `negation_sign_flip` at column `a` of the test
schema with literal `1`. -/
theorem negation_sign_flip_witness :
    build_verifiable_expr testSchema
        (.binary ">" (.literal (.intV .i32 1)) (.unary "-" (.column "a"))) =
      .ok (.binary "<" (.unary "-" (.column ("max_" ++ "a")))
        (.literal (.intV .i32 1)), [⟨"a", 0, .smax⟩]) ∧
    build_verifiable_expr testSchema predNegOr =
      .ok (.binary "or"
        (.binary "<" (.unary "-" (.column "max_a")) (.literal (.intV .i32 1)))
        (.binary "<=" (.column "min_b") (.literal (.intV .i32 3))),
        [⟨"a", 0, .smax⟩, ⟨"b", 1, .smin⟩]) ∧
    (RangeFilter.try_create predNegOr testSchema).map
      (fun f => f.eval testStats) = .ok (.ok true) :=
  negation_sign_flip testSchema "a" 0 (.intV .i32 1) rfl

/-- C4: ordered comparisons rewrite to one-sided bounds: `c < v` becomes
`min_c < v` and `c > v` becomes `max_c > v`; concretely `a < 1 and b > 3`
rewrites to `(min_a < 1) and (max_b > 3)` and evaluates to `false` on the
test statistics (the block is skipped). -/
theorem ordered_comparison_rewrite (schema : Schema) (n : String) (i : Nat)
    (v : DataValue) (h : fieldIndex schema n = some i) :
    build_verifiable_expr schema (.binary "<" (.column n) (.literal v)) =
      .ok (.binary "<" (.column ("min_" ++ n)) (.literal v),
        [⟨n, i, .smin⟩]) ∧
    build_verifiable_expr schema (.binary ">" (.column n) (.literal v)) =
      .ok (.binary ">" (.column ("max_" ++ n)) (.literal v),
        [⟨n, i, .smax⟩]) ∧
    build_verifiable_expr testSchema predLtGt =
      .ok (.binary "and"
        (.binary "<" (.column "min_a") (.literal (.intV .i32 1)))
        (.binary ">" (.column "max_b") (.literal (.intV .i32 3))),
        [⟨"a", 0, .smin⟩, ⟨"b", 1, .smax⟩]) ∧
    (RangeFilter.try_create predLtGt testSchema).map
      (fun f => f.eval testStats) = .ok (.ok false) := by
  refine ⟨?_, ?_, rfl, rfl⟩
  · have e1 : build_verifiable_expr schema
        (.binary "<" (.column n) (.literal v)) =
        buildBoundCmp schema "<" 0 n v := rfl
    rw [e1]
    unfold buildBoundCmp
    rw [h]
    rfl
  · have e2 : build_verifiable_expr schema
        (.binary ">" (.column n) (.literal v)) =
        buildBoundCmp schema ">" 0 n v := rfl
    rw [e2]
    unfold buildBoundCmp
    rw [h]
    rfl

/-- Closed instance of `ordered_comparison_rewrite` at column `a` of the
test schema with literal `1`. -/
theorem ordered_comparison_rewrite_witness :
    build_verifiable_expr testSchema
        (.binary "<" (.column "a") (.literal (.intV .i32 1))) =
      .ok (.binary "<" (.column ("min_" ++ "a")) (.literal (.intV .i32 1)),
        [⟨"a", 0, .smin⟩]) ∧
    build_verifiable_expr testSchema
        (.binary ">" (.column "a") (.literal (.intV .i32 1))) =
      .ok (.binary ">" (.column ("max_" ++ "a")) (.literal (.intV .i32 1)),
        [⟨"a", 0, .smax⟩]) ∧
    build_verifiable_expr testSchema predLtGt =
      .ok (.binary "and"
        (.binary "<" (.column "min_a") (.literal (.intV .i32 1)))
        (.binary ">" (.column "max_b") (.literal (.intV .i32 3))),
        [⟨"a", 0, .smin⟩, ⟨"b", 1, .smax⟩]) ∧
    (RangeFilter.try_create predLtGt testSchema).map
      (fun f => f.eval testStats) = .ok (.ok false) :=
  ordered_comparison_rewrite testSchema "a" 0 (.intV .i32 1) rfl

/-- C5: equality rewrites to range membership and inequality to range
difference: `c = v` becomes `(min_c <= v) and (max_c >= v)`, `c != v`
becomes `(min_c != v) or (max_c != v)`; concretely `a = 1 and b != 3`
rewrites accordingly and evaluates to `true` on the test statistics. -/
theorem equality_rewrite (schema : Schema) (n : String) (i : Nat)
    (v : DataValue) (h : fieldIndex schema n = some i) :
    build_verifiable_expr schema (.binary "=" (.column n) (.literal v)) =
      .ok (.binary "and"
        (.binary "<=" (.column ("min_" ++ n)) (.literal v))
        (.binary ">=" (.column ("max_" ++ n)) (.literal v)),
        [⟨n, i, .smin⟩, ⟨n, i, .smax⟩]) ∧
    build_verifiable_expr schema (.binary "!=" (.column n) (.literal v)) =
      .ok (.binary "or"
        (.binary "!=" (.column ("min_" ++ n)) (.literal v))
        (.binary "!=" (.column ("max_" ++ n)) (.literal v)),
        [⟨n, i, .smin⟩, ⟨n, i, .smax⟩]) ∧
    build_verifiable_expr testSchema predEqNe =
      .ok (.binary "and"
        (.binary "and"
          (.binary "<=" (.column "min_a") (.literal (.intV .i32 1)))
          (.binary ">=" (.column "max_a") (.literal (.intV .i32 1))))
        (.binary "or"
          (.binary "!=" (.column "min_b") (.literal (.intV .i32 3)))
          (.binary "!=" (.column "max_b") (.literal (.intV .i32 3)))),
        [⟨"a", 0, .smin⟩, ⟨"a", 0, .smax⟩, ⟨"b", 1, .smin⟩, ⟨"b", 1, .smax⟩]) ∧
    (RangeFilter.try_create predEqNe testSchema).map
      (fun f => f.eval testStats) = .ok (.ok true) := by
  refine ⟨?_, ?_, rfl, rfl⟩
  · have e1 : build_verifiable_expr schema
        (.binary "=" (.column n) (.literal v)) =
        buildBoundCmp schema "=" 0 n v := rfl
    rw [e1]
    unfold buildBoundCmp
    rw [h]
    rfl
  · have e2 : build_verifiable_expr schema
        (.binary "!=" (.column n) (.literal v)) =
        buildBoundCmp schema "!=" 0 n v := rfl
    rw [e2]
    unfold buildBoundCmp
    rw [h]
    rfl

/-- Closed instance of `equality_rewrite` at column `a` of the test schema
with literal `1`. -/
theorem equality_rewrite_witness :
    build_verifiable_expr testSchema
        (.binary "=" (.column "a") (.literal (.intV .i32 1))) =
      .ok (.binary "and"
        (.binary "<=" (.column ("min_" ++ "a")) (.literal (.intV .i32 1)))
        (.binary ">=" (.column ("max_" ++ "a")) (.literal (.intV .i32 1))),
        [⟨"a", 0, .smin⟩, ⟨"a", 0, .smax⟩]) ∧
    build_verifiable_expr testSchema
        (.binary "!=" (.column "a") (.literal (.intV .i32 1))) =
      .ok (.binary "or"
        (.binary "!=" (.column ("min_" ++ "a")) (.literal (.intV .i32 1)))
        (.binary "!=" (.column ("max_" ++ "a")) (.literal (.intV .i32 1))),
        [⟨"a", 0, .smin⟩, ⟨"a", 0, .smax⟩]) ∧
    build_verifiable_expr testSchema predEqNe =
      .ok (.binary "and"
        (.binary "and"
          (.binary "<=" (.column "min_a") (.literal (.intV .i32 1)))
          (.binary ">=" (.column "max_a") (.literal (.intV .i32 1))))
        (.binary "or"
          (.binary "!=" (.column "min_b") (.literal (.intV .i32 3)))
          (.binary "!=" (.column "max_b") (.literal (.intV .i32 3)))),
        [⟨"a", 0, .smin⟩, ⟨"a", 0, .smax⟩, ⟨"b", 1, .smin⟩, ⟨"b", 1, .smax⟩]) ∧
    (RangeFilter.try_create predEqNe testSchema).map
      (fun f => f.eval testStats) = .ok (.ok true) :=
  equality_rewrite testSchema "a" 0 (.intV .i32 1) rfl

/-- C9: `isNull(c)` rewrites to `nulls_c > 0`, and evaluating that filter
against statistics carrying an entry for `c` returns `true` exactly when
the recorded null count is positive. -/
theorem isnull_rewrite (schema : Schema) (n : String) (i : Nat)
    (h : fieldIndex schema n = some i) :
    build_verifiable_expr schema (.scalarFn "isNull" [.column n]) =
      .ok (.binary ">" (.column ("nulls_" ++ n)) (.literal (.intV .i64 0)),
        [⟨n, i, .snulls⟩]) ∧
    ∀ stats : BlockStats, ∀ cs : ColStats, stats i = some cs →
      RangeFilter.eval
        ⟨.binary ">" (.column ("nulls_" ++ n)) (.literal (.intV .i64 0)),
          [⟨n, i, .snulls⟩]⟩ stats = .ok (decide (0 < cs.null_count)) := by
  constructor
  · have e1 : build_verifiable_expr schema (.scalarFn "isNull" [.column n]) =
        (match fieldIndex schema n with
        | none => .error (.columnNotFound n)
        | some i =>
          .ok (.binary ">" (.column (synName ⟨n, i, .snulls⟩))
            (.literal (.intV .i64 0)), [⟨n, i, .snulls⟩])) := rfl
    rw [e1, h]
    rfl
  · intro stats cs hst
    unfold RangeFilter.eval
    have hall : ([(⟨n, i, .snulls⟩ : StatCol)]).all
        (fun sc => (stats sc.ordinal).isSome) = true := by
      simp [hst]
    rw [hall]
    simp only [if_true]
    have hrow : synRow [⟨n, i, .snulls⟩] stats ("nulls_" ++ n) =
        .intV .i64 cs.null_count := by
      simp [synRow, List.find?, synName, kindTag, statVal, hst]
    have heval : evalExpr noOracle (synRow [⟨n, i, .snulls⟩] stats)
        (.binary ">" (.column ("nulls_" ++ n)) (.literal (.intV .i64 0))) =
        .ok (ordToVal ">" (some (cmpInt cs.null_count 0))) := by
      simp [evalExpr, hrow, cmpVal, bindOk]
    rw [heval]
    have hord : cmpInt cs.null_count 0 = .gt ↔ 0 < cs.null_count := by
      rw [cmpInt_gt_iff]
      omega
    rcases Nat.eq_zero_or_pos cs.null_count with hz | hp
    · rw [hz]
      rfl
    · have : cmpInt cs.null_count 0 = .gt := hord.mpr hp
      rw [show ordToVal ">" (some (cmpInt cs.null_count 0)) =
        .boolV true from by rw [this]; rfl]
      simp [hp]

/-- Closed instance of `isnull_rewrite` at column `a` of the test schema,
whose test statistics record null count 1: evaluation returns `true`. -/
theorem isnull_rewrite_witness :
    build_verifiable_expr testSchema (.scalarFn "isNull" [.column "a"]) =
      .ok (.binary ">" (.column ("nulls_" ++ "a")) (.literal (.intV .i64 0)),
        [⟨"a", 0, .snulls⟩]) ∧
    RangeFilter.eval
      ⟨.binary ">" (.column ("nulls_" ++ "a")) (.literal (.intV .i64 0)),
        [⟨"a", 0, .snulls⟩]⟩ testStats = .ok true := by
  have h := isnull_rewrite testSchema "a" 0 rfl
  exact ⟨h.1, h.2 testStats ⟨.intV .i32 1, .intV .i32 20, 1⟩ rfl⟩

/-- C6: a scalar call whose name the builder does not know, and an opaque
binary operator such as `like`, degrade to the constant `true` rather than
an error; concretely `b >= 0 and like(c, '%sys%')` rewrites to
`(max_b >= 0) and true` and evaluates to `true` on the test statistics. -/
theorem unsupported_shape_degrades (schema : Schema) (op : String)
    (args : List Expr) (l r : Expr)
    (h1 : op ≠ "isNull") (h2 : op ≠ "isNotNull") :
    build_verifiable_expr schema (.scalarFn op args) = .ok (trueLit, []) ∧
    build_verifiable_expr schema (.binary "like" l r) = .ok (trueLit, []) ∧
    build_verifiable_expr testSchema predLikeAnd =
      .ok (.binary "and"
        (.binary ">=" (.column "max_b") (.literal (.intV .i32 0))) trueLit,
        [⟨"b", 1, .smax⟩]) ∧
    (RangeFilter.try_create predLikeAnd testSchema).map
      (fun f => f.eval testStats) = .ok (.ok true) := by
  refine ⟨?_, rfl, rfl, rfl⟩
  have e : build_verifiable_expr schema (.scalarFn op args) =
      buildScalar schema op args := rfl
  rw [e]
  unfold buildScalar
  split
  any_goals rfl
  all_goals simp_all

/-- Closed instance of `unsupported_shape_degrades` at the opaque scalar
call `like(c, '%sys%')`. -/
theorem unsupported_shape_degrades_witness :
    build_verifiable_expr testSchema
        (.scalarFn "like" [.column "c", .literal (.strV "%sys%")]) =
      .ok (trueLit, []) ∧
    build_verifiable_expr testSchema
        (.binary "like" (.column "c") (.literal (.strV "%sys%"))) =
      .ok (trueLit, []) ∧
    build_verifiable_expr testSchema predLikeAnd =
      .ok (.binary "and"
        (.binary ">=" (.column "max_b") (.literal (.intV .i32 0))) trueLit,
        [⟨"b", 1, .smax⟩]) ∧
    (RangeFilter.try_create predLikeAnd testSchema).map
      (fun f => f.eval testStats) = .ok (.ok true) :=
  unsupported_shape_degrades testSchema "like"
    [.column "c", .literal (.strV "%sys%")]
    (.column "c") (.literal (.strV "%sys%"))
    (by decide) (by decide)

/-- C10: statistics value types need not match the schema's declared
column types: with the test schema declaring `a` as `Int64`, construction
of the filter for `a < 1 and b > 3` followed by evaluation against
statistics whose bounds are `Int32` values succeeds with a boolean
verdict, for every choice of those `Int32` statistics. -/
theorem stats_type_tolerance (m M m2 M2 : Int) (c1 c2 : Nat) :
    RangeFilter.try_create predLtGt testSchema =
      .ok ⟨.binary "and"
        (.binary "<" (.column "min_a") (.literal (.intV .i32 1)))
        (.binary ">" (.column "max_b") (.literal (.intV .i32 3))),
        [⟨"a", 0, .smin⟩, ⟨"b", 1, .smax⟩]⟩ ∧
    RangeFilter.eval
      ⟨.binary "and"
        (.binary "<" (.column "min_a") (.literal (.intV .i32 1)))
        (.binary ">" (.column "max_b") (.literal (.intV .i32 3))),
        [⟨"a", 0, .smin⟩, ⟨"b", 1, .smax⟩]⟩
      (fun j => match j with
        | 0 => some ⟨.intV .i32 m, .intV .i32 M, c1⟩
        | 1 => some ⟨.intV .i32 m2, .intV .i32 M2, c2⟩
        | _ => none) =
      .ok (decide (m < 1) && decide (3 < M2)) := by
  constructor
  · rfl
  · unfold RangeFilter.eval
    simp only [List.all, Bool.and_true, Option.isSome_some, if_true]
    have hrowa : synRow [⟨"a", 0, .smin⟩, ⟨"b", 1, .smax⟩]
        (fun j => match j with
          | 0 => some ⟨.intV .i32 m, .intV .i32 M, c1⟩
          | 1 => some ⟨.intV .i32 m2, .intV .i32 M2, c2⟩
          | _ => none) "min_a" = .intV .i32 m := by
      simp [synRow, List.find?, synName, kindTag, statVal]
    have hrowb : synRow [⟨"a", 0, .smin⟩, ⟨"b", 1, .smax⟩]
        (fun j => match j with
          | 0 => some ⟨.intV .i32 m, .intV .i32 M, c1⟩
          | 1 => some ⟨.intV .i32 m2, .intV .i32 M2, c2⟩
          | _ => none) "max_b" = .intV .i32 M2 := by
      simp [synRow, List.find?, synName, kindTag, statVal]
    have heval : evalExpr noOracle
        (synRow [⟨"a", 0, .smin⟩, ⟨"b", 1, .smax⟩]
          (fun j => match j with
            | 0 => some ⟨.intV .i32 m, .intV .i32 M, c1⟩
            | 1 => some ⟨.intV .i32 m2, .intV .i32 M2, c2⟩
            | _ => none))
        (.binary "and"
          (.binary "<" (.column "min_a") (.literal (.intV .i32 1)))
          (.binary ">" (.column "max_b") (.literal (.intV .i32 3)))) =
        .ok (.boolV (opHolds "<" (cmpInt m 1) && opHolds ">" (cmpInt M2 3)))
        := by
      simp [evalExpr, hrowa, hrowb, cmpVal, bindOk, ordToVal, kleeneAnd]
    rw [heval]
    have h1 : opHolds "<" (cmpInt m 1) = decide (m < 1) := by
      simp [opHolds]
      rw [show (cmpInt m 1 = Ordering.lt) = (m < 1) from propext cmpInt_lt_iff]
    have h2 : opHolds ">" (cmpInt M2 3) = decide (3 < M2) := by
      simp [opHolds]
      rw [show (cmpInt M2 3 = Ordering.gt) = (3 < M2) from propext cmpInt_gt_iff]
    rw [h1, h2]

theorem bindErr {e a b : Type} (x : e) (f : a → Except e b) :
    (Except.error x >>= f) = Except.error x := rfl

theorem buildBoundCmp_error (schema : Schema) (op : String) (k : Nat)
    (n : String) (v : DataValue) (e : BuildErr)
    (h : buildBoundCmp schema op k n v = .error e) :
    e = .columnNotFound n ∧ fieldIndex schema n = none := by
  unfold buildBoundCmp at h
  split at h
  · rename_i heq
    injection h with h2
    exact ⟨h2.symm, heq⟩
  · split at h <;> simp at h

theorem buildScalar_error (schema : Schema) (op : String) (args : List Expr)
    (e : BuildErr) (h : buildScalar schema op args = .error e) :
    ∃ n, e = .columnNotFound n ∧ fieldIndex schema n = none ∧
      n ∈ columnsOfList args := by
  unfold buildScalar at h
  split at h
  · rename_i op2 args2 n
    rcases hfi : fieldIndex schema n with _ | j
    · rw [hfi] at h
      simp at h
      exact ⟨n, h.symm, hfi, by simp [columnsOfList, columnsOf]⟩
    · rw [hfi] at h
      simp at h
  · rename_i op2 args2 n
    rcases hfi : fieldIndex schema n with _ | j
    · rw [hfi] at h
      simp at h
      exact ⟨n, h.symm, hfi, by simp [columnsOfList, columnsOf]⟩
    · rw [hfi] at h
      simp at h
  · simp at h

theorem boundShape_mem : ∀ (N : Nat) (x : Expr), sizeOf x ≤ N →
    ∀ k n, boundShape x = some (k, n) → n ∈ columnsOf x := by
  intro N
  induction N with
  | zero =>
    intro x hx
    cases x <;> simp_arith at hx
  | succ N ih =>
    intro x hx k n h
    cases x with
    | column m =>
      simp [boundShape] at h
      simp [columnsOf, h.2]
    | unary op e2 =>
      rw [boundShape.eq_def] at h
      split at h
      · simp_all
      · rename_i x2 e3 heq
        injection heq with hop he
        subst he
        rcases hb : boundShape e2 with _ | ⟨k2, n2⟩
        · rw [hb] at h
          simp at h
        · rw [hb] at h
          simp at h
          have hsz : sizeOf e2 ≤ N := by simp_arith at hx; omega
          have hm := ih e2 hsz k2 n2 hb
          simp only [columnsOf]
          exact h.2 ▸ hm
      · simp at h
    | literal v => simp [boundShape] at h
    | binary op l r => simp [boundShape] at h
    | scalarFn op args => simp [boundShape] at h

theorem buildCmp_error (schema : Schema) (op : String) (l r : Expr)
    (e : BuildErr) (h : buildCmp schema op l r = .error e) :
    ∃ n, e = .columnNotFound n ∧ fieldIndex schema n = none ∧
      (n ∈ columnsOf l ∨ n ∈ columnsOf r) := by
  unfold buildCmp at h
  split at h
  · rename_i x r2 k n v heq
    obtain ⟨h1, h2⟩ := buildBoundCmp_error _ _ _ _ _ _ h
    exact ⟨n, h1, h2, .inl (boundShape_mem (sizeOf l) l le_rfl k n heq)⟩
  · split at h
    · rename_i r2 x2 r3 l2 x3 v k n heq xf
      obtain ⟨h1, h2⟩ := buildBoundCmp_error _ _ _ _ _ _ h
      exact ⟨n, h1, h2, .inr (boundShape_mem (sizeOf r2) r2 le_rfl k n heq)⟩
    · simp at h

set_option maxHeartbeats 1000000 in
theorem build_error_aux (schema : Schema) : ∀ (N : Nat) (P : Expr),
    sizeOf P ≤ N → ∀ e, build_verifiable_expr schema P = .error e →
    ∃ n, e = .columnNotFound n ∧ fieldIndex schema n = none ∧
      n ∈ columnsOf P := by
  intro N
  induction N with
  | zero =>
    intro P hP
    cases P <;> simp_arith at hP
  | succ N ih =>
    intro P hP e h
    cases P with
    | column m => simp [build_verifiable_expr] at h
    | literal v => cases v <;> simp [build_verifiable_expr] at h
    | unary op e2 => simp [build_verifiable_expr] at h
    | scalarFn op args =>
      have e1 : build_verifiable_expr schema (.scalarFn op args) =
          buildScalar schema op args := rfl
      rw [e1] at h
      obtain ⟨n, h1, h3, h4⟩ := buildScalar_error _ _ _ _ h
      exact ⟨n, h1, h3, by simpa [columnsOf] using h4⟩
    | binary op l r =>
      have hszl : sizeOf l ≤ N := by simp_arith at hP; omega
      have hszr : sizeOf r ≤ N := by simp_arith at hP; omega
      rw [build_verifiable_expr.eq_def] at h
      split at h
      case h_1 => simp_all
      case h_2 x l2 r2 heq =>
        injection heq with hop hl hr
        subst hl
        subst hr
        rcases hbl : build_verifiable_expr schema l with el | pl
        · rw [hbl, bindErr] at h
          injection h with h2
          obtain ⟨n, h1, h3, h4⟩ := ih l hszl el hbl
          exact ⟨n, h2 ▸ h1, h3, by simp [columnsOf]; exact .inl h4⟩
        · rw [hbl, bindOk] at h
          rcases hbr : build_verifiable_expr schema r with er | pr
          · rw [hbr, bindErr] at h
            injection h with h2
            obtain ⟨n, h1, h3, h4⟩ := ih r hszr er hbr
            exact ⟨n, h2 ▸ h1, h3, by simp [columnsOf]; exact .inr h4⟩
          · rw [hbr, bindOk] at h
            simp at h
      case h_3 x l2 r2 heq =>
        injection heq with hop hl hr
        subst hl
        subst hr
        rcases hbl : build_verifiable_expr schema l with el | pl
        · rw [hbl, bindErr] at h
          injection h with h2
          obtain ⟨n, h1, h3, h4⟩ := ih l hszl el hbl
          exact ⟨n, h2 ▸ h1, h3, by simp [columnsOf]; exact .inl h4⟩
        · rw [hbl, bindOk] at h
          rcases hbr : build_verifiable_expr schema r with er | pr
          · rw [hbr, bindErr] at h
            injection h with h2
            obtain ⟨n, h1, h3, h4⟩ := ih r hszr er hbr
            exact ⟨n, h2 ▸ h1, h3, by simp [columnsOf]; exact .inr h4⟩
          · rw [hbr, bindOk] at h
            simp at h
      case h_10 => simp_all
      case h_11 => simp at h
      all_goals
        (rename_i x l2 r2 heq
         injection heq with hop hl hr
         subst hl
         subst hr
         obtain ⟨n, h1, h3, h4⟩ := buildCmp_error _ _ _ _ _ h
         exact ⟨n, h1, h3, by simp [columnsOf]; tauto⟩)

/-- C3 amended: construction can fail only with a schema-mismatch error,
and any such failure names a column that is referenced by the predicate
and absent from the schema. -/
theorem build_error_only_schema_mismatch (schema : Schema) (P : Expr)
    (e : BuildErr) (h : build_verifiable_expr schema P = .error e) :
    ∃ n, e = .columnNotFound n ∧ fieldIndex schema n = none ∧
      n ∈ columnsOf P :=
  build_error_aux schema (sizeOf P) P le_rfl e h

/-- Closed instance of `build_error_only_schema_mismatch`: building
`x < 5` over the empty schema fails with `columnNotFound "x"`, and indeed
`x` is referenced and absent. -/
theorem build_error_only_schema_mismatch_witness :
    ∃ n, (BuildErr.columnNotFound "x") = .columnNotFound n ∧
      fieldIndex ([] : Schema) n = none ∧
      n ∈ columnsOf (.binary "<" (.column "x") (.literal (.intV .i64 5))) :=
  build_error_only_schema_mismatch [] _ _ rfl

/-- C3 counterexample: the predicate `b >= 0 and like(c, ...)` references
column `c`, which is absent from the test schema, yet construction
succeeds (the opaque subexpression degrades to `true` without resolving
its column), refuting "fails whenever a referenced column is absent". -/
theorem absent_column_in_opaque_shape_no_error :
    "c" ∈ columnsOf predLikeAnd ∧
    fieldIndex testSchema "c" = none ∧
    RangeFilter.try_create predLikeAnd testSchema =
      .ok ⟨.binary "and"
        (.binary ">=" (.column "max_b") (.literal (.intV .i32 0))) trueLit,
        [⟨"b", 1, .smax⟩]⟩ :=
  ⟨by decide, rfl, rfl⟩


theorem bind2_ok {e a b c : Type} (x : Except e a) (y : Except e b)
    (f : a → b → Except e c) (v : c)
    (h : (x >>= fun p => y >>= fun q => f p q) = .ok v) :
    ∃ p q, x = .ok p ∧ y = .ok q ∧ f p q = .ok v := by
  rcases x with ex | p
  · rw [bindErr] at h
    exact absurd h (by simp)
  · rw [bindOk] at h
    rcases y with ey | q
    · rw [bindErr] at h
      exact absurd h (by simp)
    · rw [bindOk] at h
      exact ⟨p, q, rfl, rfl, h⟩

theorem fieldIndex_spec : ∀ (schema : Schema) (n : String) (i : Nat),
    fieldIndex schema n = some i →
    ∃ fld, schema[i]? = some fld ∧ fld.name = n := by
  intro schema
  induction schema with
  | nil => intro n i h; simp [fieldIndex] at h
  | cons f t ih =>
    intro n i h
    unfold fieldIndex at h
    by_cases hf : f.name = n
    · rw [if_pos hf] at h
      injection h with h2
      exact ⟨f, by simp [h2.symm], hf⟩
    · rw [if_neg hf] at h
      rcases ht : fieldIndex t n with _ | j
      · rw [ht] at h
        simp at h
      · rw [ht] at h
        simp at h
        obtain ⟨fld, h1, h2⟩ := ih n j ht
        exact ⟨fld, by rw [h.symm]; simpa using h1, h2⟩

theorem append_inj_right (s a b : String) (h : s ++ a = s ++ b) : a = b := by
  have hd := congrArg String.data h
  simp only [String.data_append] at hd
  exact String.ext (List.append_cancel_left hd)

theorem synName_inj (n1 n2 : String) (i1 i2 : Nat) (k1 k2 : StatKind)
    (h : synName ⟨n1, i1, k1⟩ = synName ⟨n2, i2, k2⟩) :
    n1 = n2 ∧ k1 = k2 := by
  unfold synName at h
  cases k1 <;> cases k2 <;> simp only [kindTag] at h <;>
    first
      | exact ⟨append_inj_right _ _ _ h, rfl⟩
      | (exfalso
         have hd := congrArg String.data h
         simp [String.data_append] at hd)

theorem synRow_eq (schema : Schema) (G : StatColumns) (stats : BlockStats)
    (hG : ∀ sc ∈ G, fieldIndex schema sc.name = some sc.ordinal)
    (sc : StatCol) (hmem : sc ∈ G) :
    synRow G stats (synName sc) = statVal stats sc := by
  obtain ⟨n, i, k⟩ := sc
  unfold synRow
  rcases hf : G.find? (fun e => synName e == synName ⟨n, i, k⟩) with _ | e
  · exfalso
    have hnone := List.find?_eq_none.mp hf _ hmem
    simp at hnone
  · obtain ⟨en, ei, ek⟩ := e
    have hpe : synName ⟨en, ei, ek⟩ = synName ⟨n, i, k⟩ := by
      have := List.find?_some hf
      simpa using this
    obtain ⟨hn, hk⟩ := synName_inj en n ei i ek k hpe
    subst hn
    subst hk
    have h1 := hG _ (List.mem_of_find?_eq_some hf)
    have h2 := hG _ hmem
    simp only at h1 h2
    rw [h1] at h2
    injection h2 with h3
    rw [h3]

theorem applyNegs_null : ∀ k : Nat, applyNegs k .null = .ok .null := by
  intro k
  induction k with
  | zero => rfl
  | succ k ih => simp [applyNegs, ih, bindOk, negVal]

theorem applyNegs_int : ∀ (k : Nat) (w : IntKind) (a : Int),
    applyNegs k (.intV w a) =
      .ok (.intV w (if k % 2 = 0 then a else -a)) := by
  intro k
  induction k with
  | zero => intro w a; rfl
  | succ k ih =>
    intro w a
    have e1 : applyNegs (k + 1) (.intV w a) =
        (applyNegs k (.intV w a)) >>= negVal := rfl
    rw [e1, ih, bindOk]
    rcases Nat.mod_two_eq_zero_or_one k with hk | hk <;>
      simp [negVal, hk, Nat.add_mod] <;> omega

theorem applyNegs_str : ∀ (k : Nat) (s : String), k ≠ 0 →
    applyNegs k (.strV s) = .error .typeMismatch := by
  intro k
  induction k with
  | zero => intro s h; exact absurd rfl h
  | succ k ih =>
    intro s h
    have e1 : applyNegs (k + 1) (.strV s) =
        (applyNegs k (.strV s)) >>= negVal := rfl
    rcases Nat.eq_zero_or_pos k with hk | hk
    · subst hk
      rfl
    · rw [e1, ih s (by omega)]
      rfl

theorem applyNegs_bool : ∀ (k : Nat) (b : Bool), k ≠ 0 →
    applyNegs k (.boolV b) = .error .typeMismatch := by
  intro k
  induction k with
  | zero => intro b h; exact absurd rfl h
  | succ k ih =>
    intro b h
    have e1 : applyNegs (k + 1) (.boolV b) =
        (applyNegs k (.boolV b)) >>= negVal := rfl
    rcases Nat.eq_zero_or_pos k with hk | hk
    · subst hk
      rfl
    · rw [e1, ih b (by omega)]
      rfl

theorem kleeneAnd_boolish (a b : DataValue) (ha : IsBoolish a)
    (hb : IsBoolish b) : ∃ c, kleeneAnd a b = .ok c ∧ IsBoolish c := by
  rcases ha with ha | ⟨x, ha⟩ <;> rcases hb with hb | ⟨y, hb⟩ <;>
    subst ha <;> subst hb
  · exact ⟨_, rfl, .inl rfl⟩
  · cases y
    · exact ⟨_, rfl, .inr ⟨_, rfl⟩⟩
    · exact ⟨_, rfl, .inl rfl⟩
  · cases x
    · exact ⟨_, rfl, .inr ⟨_, rfl⟩⟩
    · exact ⟨_, rfl, .inl rfl⟩
  · cases x <;> cases y <;> exact ⟨_, rfl, .inr ⟨_, rfl⟩⟩

theorem kleeneOr_boolish (a b : DataValue) (ha : IsBoolish a)
    (hb : IsBoolish b) : ∃ c, kleeneOr a b = .ok c ∧ IsBoolish c := by
  rcases ha with ha | ⟨x, ha⟩ <;> rcases hb with hb | ⟨y, hb⟩ <;>
    subst ha <;> subst hb
  · exact ⟨_, rfl, .inl rfl⟩
  · cases y
    · exact ⟨_, rfl, .inl rfl⟩
    · exact ⟨_, rfl, .inr ⟨_, rfl⟩⟩
  · cases x
    · exact ⟨_, rfl, .inl rfl⟩
    · exact ⟨_, rfl, .inr ⟨_, rfl⟩⟩
  · cases x <;> cases y <;> exact ⟨_, rfl, .inr ⟨_, rfl⟩⟩

theorem kleeneAnd_true (a b : DataValue)
    (h : kleeneAnd a b = .ok (.boolV true)) :
    a = .boolV true ∧ b = .boolV true := by
  cases a with
  | null =>
    cases b with
    | null => simp [kleeneAnd] at h
    | boolV y => cases y <;> simp [kleeneAnd] at h
    | intV w v => simp [kleeneAnd] at h
    | strV s => simp [kleeneAnd] at h
  | boolV x =>
    cases b with
    | null => cases x <;> simp [kleeneAnd] at h
    | boolV y =>
      cases x <;> cases y <;> simp [kleeneAnd] at h <;> exact ⟨rfl, rfl⟩
    | intV w v => simp [kleeneAnd] at h
    | strV s => simp [kleeneAnd] at h
  | intV w v => cases b <;> simp [kleeneAnd] at h
  | strV s => cases b <;> simp [kleeneAnd] at h

theorem kleeneOr_true (a b : DataValue)
    (h : kleeneOr a b = .ok (.boolV true)) :
    a = .boolV true ∨ b = .boolV true := by
  cases a with
  | null =>
    cases b with
    | null => simp [kleeneOr] at h
    | boolV y => cases y <;> simp [kleeneOr] at h <;> exact .inr rfl
    | intV w v => simp [kleeneOr] at h
    | strV s => simp [kleeneOr] at h
  | boolV x =>
    cases b with
    | null => cases x <;> simp [kleeneOr] at h <;> exact .inl rfl
    | boolV y =>
      cases x <;> cases y <;> simp [kleeneOr] at h <;>
        first
          | exact .inl rfl
          | exact .inr rfl
    | intV w v => simp [kleeneOr] at h
    | strV s => simp [kleeneOr] at h
  | intV w v => cases b <;> simp [kleeneOr] at h
  | strV s => cases b <;> simp [kleeneOr] at h

theorem kleeneOr_true_left (b : DataValue) (hb : IsBoolish b) :
    kleeneOr (.boolV true) b = .ok (.boolV true) := by
  rcases hb with hb | ⟨y, hb⟩ <;> subst hb
  · rfl
  · cases y <;> rfl

theorem kleeneOr_true_right (a : DataValue) (ha : IsBoolish a) :
    kleeneOr a (.boolV true) = .ok (.boolV true) := by
  rcases ha with ha | ⟨x, ha⟩ <;> subst ha
  · rfl
  · cases x <;> rfl

theorem evalExpr_wrapNegs (oracle : Oracle) (row : Row) :
    ∀ (k : Nat) (e : Expr),
    evalExpr oracle row (wrapNegs k e) =
      (evalExpr oracle row e) >>= applyNegs k := by
  intro k
  induction k with
  | zero =>
    intro e
    have e0 : wrapNegs 0 e = e := rfl
    rw [e0]
    rcases evalExpr oracle row e with ex | v
    · rfl
    · rfl
  | succ k ih =>
    intro e
    have e1 : evalExpr oracle row (wrapNegs (k + 1) e) =
        (evalExpr oracle row (wrapNegs k e)) >>= negVal := rfl
    rw [e1, ih]
    rcases evalExpr oracle row e with ex | v
    · rfl
    · rfl


theorem cmpLE_not_null_left {a b : DataValue} (h : cmpLE a b) :
    a ≠ .null := by
  intro ha
  subst ha
  simp [cmpLE, cmpVal] at h

theorem cmpLE_not_null_right {a b : DataValue} (h : cmpLE a b) :
    b ≠ .null := by
  intro hb
  subst hb
  cases a <;> simp [cmpLE, cmpVal] at h

theorem cmpLE_int {wm w : IntKind} {m a : Int}
    (h : cmpLE (.intV wm m) (.intV w a)) : m ≤ a := by
  simp [cmpLE, cmpVal] at h
  rcases h with h | h
  · exact le_of_lt (cmpInt_lt_iff.mp h)
  · exact le_of_eq (cmpInt_eq_iff.mp h)

theorem cmpLE_str {ms s : String}
    (h : cmpLE (.strV ms) (.strV s)) : ms ≤ s := by
  simp [cmpLE, cmpVal] at h
  rcases h with h | h
  · exact le_of_lt (cmpStr_lt_iff.mp h)
  · exact le_of_eq (cmpStr_eq_iff.mp h)

theorem cmpLE_int_left {w : IntKind} {a : Int} {mn : DataValue}
    (h : cmpLE mn (.intV w a)) : ∃ wm m, mn = .intV wm m ∧ m ≤ a := by
  cases mn with
  | intV wm m => exact ⟨wm, m, rfl, cmpLE_int h⟩
  | null => simp [cmpLE, cmpVal] at h
  | strV s => simp [cmpLE, cmpVal] at h
  | boolV b => simp [cmpLE, cmpVal] at h

theorem cmpLE_int_right {w : IntKind} {a : Int} {mx : DataValue}
    (h : cmpLE (.intV w a) mx) : ∃ wM M, mx = .intV wM M ∧ a ≤ M := by
  cases mx with
  | intV wM M => exact ⟨wM, M, rfl, cmpLE_int h⟩
  | null => simp [cmpLE, cmpVal] at h
  | strV s => simp [cmpLE, cmpVal] at h
  | boolV b => simp [cmpLE, cmpVal] at h

theorem cmpLE_str_left {s : String} {mn : DataValue}
    (h : cmpLE mn (.strV s)) : ∃ ms, mn = .strV ms ∧ ms ≤ s := by
  cases mn with
  | strV ms => exact ⟨ms, rfl, cmpLE_str h⟩
  | null => simp [cmpLE, cmpVal] at h
  | intV w a => simp [cmpLE, cmpVal] at h
  | boolV b => simp [cmpLE, cmpVal] at h

theorem cmpLE_str_right {s : String} {mx : DataValue}
    (h : cmpLE (.strV s) mx) : ∃ Ms, mx = .strV Ms ∧ s ≤ Ms := by
  cases mx with
  | strV Ms => exact ⟨Ms, rfl, cmpLE_str h⟩
  | null => simp [cmpLE, cmpVal] at h
  | intV w a => simp [cmpLE, cmpVal] at h
  | boolV b => simp [cmpLE, cmpVal] at h

theorem bound_null_defined (v : DataValue) (k : Nat) :
    (applyNegs k (DataValue.null)) >>= (fun sa => cmpVal sa v) =
      .ok none := by
  rw [applyNegs_null, bindOk]
  cases v <;> rfl

theorem bound_cmp_spec (mn mx x v : DataValue) (k : Nat) (o : Ordering)
    (hbnd : x ≠ .null → cmpLE mn x ∧ cmpLE x mx)
    (hrow : (applyNegs k x) >>= (fun va => cmpVal va v) = .ok (some o)) :
    ∃ ol ou,
      (applyNegs k (if k % 2 = 0 then mn else mx)) >>=
        (fun sa => cmpVal sa v) = .ok (some ol) ∧
      (applyNegs k (if k % 2 = 0 then mx else mn)) >>=
        (fun sa => cmpVal sa v) = .ok (some ou) ∧
      (o = .lt → ol = .lt) ∧ ((o = .lt ∨ o = .eq) → (ol = .lt ∨ ol = .eq)) ∧
      (o = .gt → ou = .gt) ∧ ((o = .gt ∨ o = .eq) → (ou = .gt ∨ ou = .eq)) ∧
      (ol = .eq → ou = .eq → o = .eq) := by
  cases x with
  | null =>
    rw [applyNegs_null, bindOk] at hrow
    cases v <;> simp [cmpVal] at hrow
  | boolV b =>
    rcases Nat.eq_zero_or_pos k with hk | hk
    · subst hk
      cases v <;> simp [applyNegs, bindOk, cmpVal] at hrow
    · rw [applyNegs_bool k b (by omega), bindErr] at hrow
      simp at hrow
  | strV s =>
    rcases Nat.eq_zero_or_pos k with hk | hk
    · subst hk
      cases v with
      | null => simp [applyNegs, bindOk, cmpVal] at hrow
      | intV wv b => simp [applyNegs, bindOk, cmpVal] at hrow
      | boolV c => simp [applyNegs, bindOk, cmpVal] at hrow
      | strV t =>
        simp [applyNegs, bindOk, cmpVal] at hrow
        obtain ⟨ms, hmn, hms⟩ := cmpLE_str_left (hbnd (by simp)).1
        obtain ⟨Ms, hmx, hsM⟩ := cmpLE_str_right (hbnd (by simp)).2
        subst hmn
        subst hmx
        subst hrow
        refine ⟨cmpStr ms t, cmpStr Ms t, by simp [applyNegs, bindOk, cmpVal],
          by simp [applyNegs, bindOk, cmpVal], ?_, ?_, ?_, ?_, ?_⟩
        · rw [cmpStr_lt_iff, cmpStr_lt_iff]
          exact fun h => lt_of_le_of_lt hms h
        · rw [cmpStr_lt_iff, cmpStr_eq_iff, cmpStr_lt_iff, cmpStr_eq_iff]
          intro h
          have hst : s ≤ t := by
            rcases h with h | h
            · exact le_of_lt h
            · exact le_of_eq h
          exact lt_or_eq_of_le (le_trans hms hst)
        · rw [cmpStr_gt_iff, cmpStr_gt_iff]
          exact fun h => lt_of_lt_of_le h hsM
        · rw [cmpStr_gt_iff, cmpStr_eq_iff, cmpStr_gt_iff, cmpStr_eq_iff]
          intro h
          have hts : t ≤ s := by
            rcases h with h | h
            · exact le_of_lt h
            · exact le_of_eq h.symm
          rcases lt_or_eq_of_le (le_trans hts hsM) with h2 | h2
          · exact .inl h2
          · exact .inr h2.symm
        · rw [cmpStr_eq_iff, cmpStr_eq_iff, cmpStr_eq_iff]
          intro hl hu
          exact le_antisymm (le_trans hsM (le_of_eq hu))
            (le_trans (le_of_eq hl.symm) hms)
    · rw [applyNegs_str k s (by omega), bindErr] at hrow
      simp at hrow
  | intV w a =>
    rw [applyNegs_int, bindOk] at hrow
    cases v with
    | null => simp [cmpVal] at hrow
    | boolV c => simp [cmpVal] at hrow
    | strV t => simp [cmpVal] at hrow
    | intV wv b =>
      simp [cmpVal] at hrow
      obtain ⟨wm, m, hmn, hma⟩ := cmpLE_int_left (hbnd (by simp)).1
      obtain ⟨wM, M, hmx, haM⟩ := cmpLE_int_right (hbnd (by simp)).2
      subst hmn
      subst hmx
      rcases Nat.mod_two_eq_zero_or_one k with hk | hk
      · rw [hk] at hrow
        simp at hrow
        subst hrow
        refine ⟨cmpInt m b, cmpInt M b, ?_, ?_, ?_, ?_, ?_, ?_, ?_⟩
        · rw [if_pos hk, applyNegs_int, bindOk]
          simp [cmpVal, hk]
        · rw [if_pos hk, applyNegs_int, bindOk]
          simp [cmpVal, hk]
        all_goals
          simp only [cmpInt_lt_iff, cmpInt_eq_iff, cmpInt_gt_iff]
          omega
      · rw [hk] at hrow
        simp at hrow
        subst hrow
        refine ⟨cmpInt (-M) b, cmpInt (-m) b, ?_, ?_, ?_, ?_, ?_, ?_, ?_⟩
        · rw [if_neg (by omega), applyNegs_int, bindOk]
          simp [cmpVal, hk]
        · rw [if_neg (by omega), applyNegs_int, bindOk]
          simp [cmpVal, hk]
        all_goals
          simp only [cmpInt_lt_iff, cmpInt_eq_iff, cmpInt_gt_iff]
          omega

theorem bound_cmp_defined (mn mx x v : DataValue) (k : Nat)
    (u : Option Ordering) (h1 : cmpLE mn x) (h2 : cmpLE x mx)
    (hrow : (applyNegs k x) >>= (fun va => cmpVal va v) = .ok u) :
    (∃ ul, (applyNegs k (if k % 2 = 0 then mn else mx)) >>=
      (fun sa => cmpVal sa v) = .ok ul) ∧
    (∃ uu, (applyNegs k (if k % 2 = 0 then mx else mn)) >>=
      (fun sa => cmpVal sa v) = .ok uu) := by
  cases x with
  | null => exact absurd rfl (cmpLE_not_null_right h1)
  | boolV b =>
    cases mn <;> simp [cmpLE, cmpVal] at h1
  | strV s =>
    obtain ⟨ms, hmn, hms⟩ := cmpLE_str_left h1
    obtain ⟨Ms, hmx, hsM⟩ := cmpLE_str_right h2
    subst hmn
    subst hmx
    rcases Nat.eq_zero_or_pos k with hk | hk
    · subst hk
      cases v with
      | null =>
        exact ⟨⟨none, by simp [applyNegs, bindOk, cmpVal]⟩,
          ⟨none, by simp [applyNegs, bindOk, cmpVal]⟩⟩
      | strV t =>
        exact ⟨⟨some (cmpStr ms t), by simp [applyNegs, bindOk, cmpVal]⟩,
          ⟨some (cmpStr Ms t), by simp [applyNegs, bindOk, cmpVal]⟩⟩
      | intV wv b => simp [applyNegs, bindOk, cmpVal] at hrow
      | boolV c => simp [applyNegs, bindOk, cmpVal] at hrow
    · rw [applyNegs_str k s (by omega), bindErr] at hrow
      simp at hrow
  | intV w a =>
    obtain ⟨wm, m, hmn, hma⟩ := cmpLE_int_left h1
    obtain ⟨wM, M, hmx, haM⟩ := cmpLE_int_right h2
    subst hmn
    subst hmx
    rw [applyNegs_int, bindOk] at hrow
    cases v with
    | null =>
      constructor
      · rcases Nat.mod_two_eq_zero_or_one k with hk | hk
        · exact ⟨none, by rw [if_pos hk, applyNegs_int, bindOk]; rfl⟩
        · exact ⟨none, by rw [if_neg (by omega), applyNegs_int, bindOk]; rfl⟩
      · rcases Nat.mod_two_eq_zero_or_one k with hk | hk
        · exact ⟨none, by rw [if_pos hk, applyNegs_int, bindOk]; rfl⟩
        · exact ⟨none, by rw [if_neg (by omega), applyNegs_int, bindOk]; rfl⟩
    | intV wv b =>
      constructor
      · rcases Nat.mod_two_eq_zero_or_one k with hk | hk
        · exact ⟨_, by rw [if_pos hk, applyNegs_int, bindOk]; rfl⟩
        · exact ⟨_, by rw [if_neg (by omega), applyNegs_int, bindOk]; rfl⟩
      · rcases Nat.mod_two_eq_zero_or_one k with hk | hk
        · exact ⟨_, by rw [if_pos hk, applyNegs_int, bindOk]; rfl⟩
        · exact ⟨_, by rw [if_neg (by omega), applyNegs_int, bindOk]; rfl⟩
    | strV t => simp [cmpVal] at hrow
    | boolV c => simp [cmpVal] at hrow


theorem bind_assoc_ok {e a b c : Type} (x : Except e a) (f : a → Except e b)
    (g : b → Except e c) (u : b) (h : (x >>= f) = .ok u) :
    (x >>= fun p => (f p) >>= g) = g u := by
  rcases x with ex | p
  · rw [bindErr] at h
    exact absurd h (by simp)
  · rw [bindOk] at h
    rw [bindOk, h, bindOk]

theorem ordToVal_boolish (op : String) (u : Option Ordering) :
    IsBoolish (ordToVal op u) := by
  cases u with
  | none => exact .inl rfl
  | some o => exact .inr ⟨_, rfl⟩

theorem opHolds_lt_iff {o : Ordering} : opHolds "<" o = true ↔ o = .lt := by
  cases o <;> simp [opHolds]

theorem opHolds_le_iff {o : Ordering} :
    opHolds "<=" o = true ↔ (o = .lt ∨ o = .eq) := by
  cases o <;> simp [opHolds]

theorem opHolds_gt_iff {o : Ordering} : opHolds ">" o = true ↔ o = .gt := by
  cases o <;> simp [opHolds]

theorem opHolds_ge_iff {o : Ordering} :
    opHolds ">=" o = true ↔ (o = .gt ∨ o = .eq) := by
  cases o <;> simp [opHolds]

theorem opHolds_eq_iff {o : Ordering} : opHolds "=" o = true ↔ o = .eq := by
  cases o <;> simp [opHolds]

theorem opHolds_ne_iff {o : Ordering} :
    opHolds "!=" o = true ↔ (o = .lt ∨ o = .gt) := by
  cases o <;> simp [opHolds]

theorem evalCmpNode (srow : Row) (op : String) (name : String) (k : Nat)
    (v : DataValue) (u : Option Ordering)
    (hunf : evalExpr noOracle srow
        (.binary op (wrapNegs k (.column name)) (.literal v)) =
      (evalExpr noOracle srow (wrapNegs k (.column name))) >>= fun a =>
        (evalExpr noOracle srow (.literal v)) >>= fun b =>
          (cmpVal a b) >>= fun c => .ok (ordToVal op c))
    (hcmp : (applyNegs k (srow name)) >>= (fun sa => cmpVal sa v) = .ok u) :
    evalExpr noOracle srow
        (.binary op (wrapNegs k (.column name)) (.literal v)) =
      .ok (ordToVal op u) := by
  rw [hunf, evalExpr_wrapNegs]
  rw [show evalExpr noOracle srow (.column name) = .ok (srow name) from rfl,
    bindOk]
  rw [show evalExpr noOracle srow (.literal v) = .ok v from rfl]
  simp only [bindOk]
  exact bind_assoc_ok _ _ _ u hcmp


theorem statVal_low (stats : BlockStats) (n : String) (i k : Nat)
    (cs : ColStats) (hcs : stats i = some cs) :
    statVal stats (lowCol n i k) = (if k % 2 = 0 then cs.min else cs.max) := by
  unfold statVal lowCol lowerKind
  rcases Nat.mod_two_eq_zero_or_one k with hk | hk <;> simp [hk, hcs]

theorem statVal_upp (stats : BlockStats) (n : String) (i k : Nat)
    (cs : ColStats) (hcs : stats i = some cs) :
    statVal stats (uppCol n i k) = (if k % 2 = 0 then cs.max else cs.min) := by
  unfold statVal uppCol upperKind
  rcases Nat.mod_two_eq_zero_or_one k with hk | hk <;> simp [hk, hcs]

theorem ordToVal_true (op : String) (o : Ordering)
    (h : opHolds op o = true) : ordToVal op (some o) = .boolV true := by
  rw [show ordToVal op (some o) = .boolV (opHolds op o) from rfl, h]

theorem opHolds_ne_of_ne {o : Ordering} (h : o ≠ .eq) :
    opHolds "!=" o = true := by
  cases o <;> simp_all [opHolds]

theorem kleeneOr_bool (x y : Bool) :
    kleeneOr (.boolV x) (.boolV y) = .ok (.boolV (x || y)) := by
  cases x <;> cases y <;> rfl

theorem kleeneAnd_bool (x y : Bool) :
    kleeneAnd (.boolV x) (.boolV y) = .ok (.boolV (x && y)) := by
  cases x <;> cases y <;> rfl

set_option maxHeartbeats 1000000 in
theorem buildBoundCmp_core (schema : Schema) (stats : BlockStats)
    (block : List Row) (G : StatColumns) (op : String) (k : Nat)
    (n : String) (v : DataValue) (V : Expr) (scs : StatColumns)
    (i : Nat) (fld : DataField) (cs : ColStats)
    (hb : buildBoundCmp schema op k n v = .ok (V, scs))
    (hsub : ∀ sc ∈ scs, sc ∈ G)
    (hG : ∀ sc ∈ G, fieldIndex schema sc.name = some sc.ordinal)
    (hfi : fieldIndex schema n = some i)
    (hfld : schema[i]? = some fld) (hname : fld.name = n)
    (hcs : stats i = some cs)
    (hcons : ∀ r ∈ block, r fld.name ≠ .null →
      cmpLE cs.min (r fld.name) ∧ cmpLE (r fld.name) cs.max)
    (hnull3 : (∀ r ∈ block, r fld.name = .null) →
      cs.min = .null ∧ cs.max = .null)
    (hrowsOk : ∀ r ∈ block, ∃ u,
      (applyNegs k (r n)) >>= (fun va => cmpVal va v) = .ok u) :
    (∃ w, evalExpr noOracle (synRow G stats) V = .ok w ∧ IsBoolish w) ∧
    (∀ r ∈ block, ∀ o,
      (applyNegs k (r n)) >>= (fun va => cmpVal va v) = .ok (some o) →
      opHolds op o = true →
      evalExpr noOracle (synRow G stats) V = .ok (.boolV true)) := by
  have hT : (∃ ul, (applyNegs k (if k % 2 = 0 then cs.min else cs.max)) >>=
      (fun sa => cmpVal sa v) = .ok ul) ∧
      (∃ uu, (applyNegs k (if k % 2 = 0 then cs.max else cs.min)) >>=
      (fun sa => cmpVal sa v) = .ok uu) := by
    by_cases hall : ∀ r ∈ block, r fld.name = .null
    · obtain ⟨hm0, hM0⟩ := hnull3 hall
      constructor
      · refine ⟨none, ?_⟩
        rcases Nat.mod_two_eq_zero_or_one k with hk | hk
        · rw [if_pos hk, hm0]
          exact bound_null_defined v k
        · rw [if_neg (by omega), hM0]
          exact bound_null_defined v k
      · refine ⟨none, ?_⟩
        rcases Nat.mod_two_eq_zero_or_one k with hk | hk
        · rw [if_pos hk, hM0]
          exact bound_null_defined v k
        · rw [if_neg (by omega), hm0]
          exact bound_null_defined v k
    · push_neg at hall
      obtain ⟨r0, hr0, hne0⟩ := hall
      obtain ⟨le1, le2⟩ := hcons r0 hr0 hne0
      obtain ⟨u0, hu0⟩ := hrowsOk r0 hr0
      rw [hname] at le1 le2
      exact bound_cmp_defined cs.min cs.max (r0 n) v k u0 le1 le2 hu0
  have hbndr : ∀ r ∈ block, (r n) ≠ .null →
      cmpLE cs.min (r n) ∧ cmpLE (r n) cs.max := by
    intro r hr hne
    have := hcons r hr (by rw [hname]; exact hne)
    rwa [hname] at this
  unfold buildBoundCmp at hb
  rw [hfi] at hb
  split at hb
  · exact absurd hb (by simp)
  rename_i x j heq
  injection heq with hij
  subst hij
  split at hb
  all_goals (injection hb with hp; injection hp with hV hscs; subst hV; subst hscs)
  -- "<"
  · have hmemL : lowCol n i k ∈ G := hsub _ (by simp)
    have hsyL : synRow G stats (synName (lowCol n i k)) =
        (if k % 2 = 0 then cs.min else cs.max) := by
      rw [synRow_eq schema G stats hG _ hmemL]
      exact statVal_low stats n i k cs hcs
    constructor
    · obtain ⟨⟨ul, hul⟩, _⟩ := hT
      exact ⟨_, evalCmpNode (synRow G stats) "<" (synName (lowCol n i k))
        k v ul rfl (by rw [hsyL]; exact hul), ordToVal_boolish _ _⟩
    · intro r hr o hro hold
      obtain ⟨ol, ou, hL, hU, rel1, rel2, rel3, rel4, rel5⟩ :=
        bound_cmp_spec cs.min cs.max (r n) v k o (hbndr r hr) hro
      have hthis := evalCmpNode (synRow G stats) "<"
        (synName (lowCol n i k)) k v (some ol) rfl (by rw [hsyL]; exact hL)
      rw [ordToVal_true _ _ (opHolds_lt_iff.mpr
        (rel1 (opHolds_lt_iff.mp hold)))] at hthis
      exact hthis
  -- "<="
  · have hmemL : lowCol n i k ∈ G := hsub _ (by simp)
    have hsyL : synRow G stats (synName (lowCol n i k)) =
        (if k % 2 = 0 then cs.min else cs.max) := by
      rw [synRow_eq schema G stats hG _ hmemL]
      exact statVal_low stats n i k cs hcs
    constructor
    · obtain ⟨⟨ul, hul⟩, _⟩ := hT
      exact ⟨_, evalCmpNode (synRow G stats) "<=" (synName (lowCol n i k))
        k v ul rfl (by rw [hsyL]; exact hul), ordToVal_boolish _ _⟩
    · intro r hr o hro hold
      obtain ⟨ol, ou, hL, hU, rel1, rel2, rel3, rel4, rel5⟩ :=
        bound_cmp_spec cs.min cs.max (r n) v k o (hbndr r hr) hro
      have hthis := evalCmpNode (synRow G stats) "<="
        (synName (lowCol n i k)) k v (some ol) rfl (by rw [hsyL]; exact hL)
      rw [ordToVal_true _ _ (opHolds_le_iff.mpr
        (rel2 (opHolds_le_iff.mp hold)))] at hthis
      exact hthis
  -- ">"
  · have hmemU : uppCol n i k ∈ G := hsub _ (by simp)
    have hsyU : synRow G stats (synName (uppCol n i k)) =
        (if k % 2 = 0 then cs.max else cs.min) := by
      rw [synRow_eq schema G stats hG _ hmemU]
      exact statVal_upp stats n i k cs hcs
    constructor
    · obtain ⟨_, ⟨uu, huu⟩⟩ := hT
      exact ⟨_, evalCmpNode (synRow G stats) ">" (synName (uppCol n i k))
        k v uu rfl (by rw [hsyU]; exact huu), ordToVal_boolish _ _⟩
    · intro r hr o hro hold
      obtain ⟨ol, ou, hL, hU, rel1, rel2, rel3, rel4, rel5⟩ :=
        bound_cmp_spec cs.min cs.max (r n) v k o (hbndr r hr) hro
      have hthis := evalCmpNode (synRow G stats) ">"
        (synName (uppCol n i k)) k v (some ou) rfl (by rw [hsyU]; exact hU)
      rw [ordToVal_true _ _ (opHolds_gt_iff.mpr
        (rel3 (opHolds_gt_iff.mp hold)))] at hthis
      exact hthis
  -- ">="
  · have hmemU : uppCol n i k ∈ G := hsub _ (by simp)
    have hsyU : synRow G stats (synName (uppCol n i k)) =
        (if k % 2 = 0 then cs.max else cs.min) := by
      rw [synRow_eq schema G stats hG _ hmemU]
      exact statVal_upp stats n i k cs hcs
    constructor
    · obtain ⟨_, ⟨uu, huu⟩⟩ := hT
      exact ⟨_, evalCmpNode (synRow G stats) ">=" (synName (uppCol n i k))
        k v uu rfl (by rw [hsyU]; exact huu), ordToVal_boolish _ _⟩
    · intro r hr o hro hold
      obtain ⟨ol, ou, hL, hU, rel1, rel2, rel3, rel4, rel5⟩ :=
        bound_cmp_spec cs.min cs.max (r n) v k o (hbndr r hr) hro
      have hthis := evalCmpNode (synRow G stats) ">="
        (synName (uppCol n i k)) k v (some ou) rfl (by rw [hsyU]; exact hU)
      rw [ordToVal_true _ _ (opHolds_ge_iff.mpr
        (rel4 (opHolds_ge_iff.mp hold)))] at hthis
      exact hthis
  -- "="
  · have hmemL : lowCol n i k ∈ G := hsub _ (by simp)
    have hmemU : uppCol n i k ∈ G := hsub _ (by simp)
    have hsyL : synRow G stats (synName (lowCol n i k)) =
        (if k % 2 = 0 then cs.min else cs.max) := by
      rw [synRow_eq schema G stats hG _ hmemL]
      exact statVal_low stats n i k cs hcs
    have hsyU : synRow G stats (synName (uppCol n i k)) =
        (if k % 2 = 0 then cs.max else cs.min) := by
      rw [synRow_eq schema G stats hG _ hmemU]
      exact statVal_upp stats n i k cs hcs
    have eAnd : evalExpr noOracle (synRow G stats)
        (.binary "and" (.binary "<=" (lowExpr n i k) (.literal v))
          (.binary ">=" (uppExpr n i k) (.literal v))) =
        (evalExpr noOracle (synRow G stats)
          (.binary "<=" (wrapNegs k (.column (synName (lowCol n i k))))
            (.literal v))) >>= fun a =>
        (evalExpr noOracle (synRow G stats)
          (.binary ">=" (wrapNegs k (.column (synName (uppCol n i k))))
            (.literal v))) >>= fun b =>
        kleeneAnd a b := rfl
    constructor
    · obtain ⟨⟨ul, hul⟩, ⟨uu, huu⟩⟩ := hT
      have hA := evalCmpNode (synRow G stats) "<=" (synName (lowCol n i k))
        k v ul rfl (by rw [hsyL]; exact hul)
      have hB := evalCmpNode (synRow G stats) ">=" (synName (uppCol n i k))
        k v uu rfl (by rw [hsyU]; exact huu)
      obtain ⟨c, hc, hbo⟩ := kleeneAnd_boolish _ _
        (ordToVal_boolish "<=" ul) (ordToVal_boolish ">=" uu)
      refine ⟨c, ?_, hbo⟩
      rw [eAnd, hA, bindOk, hB, bindOk]
      exact hc
    · intro r hr o hro hold
      obtain ⟨ol, ou, hL, hU, rel1, rel2, rel3, rel4, rel5⟩ :=
        bound_cmp_spec cs.min cs.max (r n) v k o (hbndr r hr) hro
      have ho : o = .eq := opHolds_eq_iff.mp hold
      have hA := evalCmpNode (synRow G stats) "<=" (synName (lowCol n i k))
        k v (some ol) rfl (by rw [hsyL]; exact hL)
      have hB := evalCmpNode (synRow G stats) ">=" (synName (uppCol n i k))
        k v (some ou) rfl (by rw [hsyU]; exact hU)
      rw [ordToVal_true _ _ (opHolds_le_iff.mpr (rel2 (.inr ho)))] at hA
      rw [ordToVal_true _ _ (opHolds_ge_iff.mpr (rel4 (.inr ho)))] at hB
      rw [eAnd, hA, bindOk, hB, bindOk]
      rfl
  -- "!="
  · have hmemL : lowCol n i k ∈ G := hsub _ (by simp)
    have hmemU : uppCol n i k ∈ G := hsub _ (by simp)
    have hsyL : synRow G stats (synName (lowCol n i k)) =
        (if k % 2 = 0 then cs.min else cs.max) := by
      rw [synRow_eq schema G stats hG _ hmemL]
      exact statVal_low stats n i k cs hcs
    have hsyU : synRow G stats (synName (uppCol n i k)) =
        (if k % 2 = 0 then cs.max else cs.min) := by
      rw [synRow_eq schema G stats hG _ hmemU]
      exact statVal_upp stats n i k cs hcs
    have eOr : evalExpr noOracle (synRow G stats)
        (.binary "or" (.binary "!=" (lowExpr n i k) (.literal v))
          (.binary "!=" (uppExpr n i k) (.literal v))) =
        (evalExpr noOracle (synRow G stats)
          (.binary "!=" (wrapNegs k (.column (synName (lowCol n i k))))
            (.literal v))) >>= fun a =>
        (evalExpr noOracle (synRow G stats)
          (.binary "!=" (wrapNegs k (.column (synName (uppCol n i k))))
            (.literal v))) >>= fun b =>
        kleeneOr a b := rfl
    constructor
    · obtain ⟨⟨ul, hul⟩, ⟨uu, huu⟩⟩ := hT
      have hA := evalCmpNode (synRow G stats) "!=" (synName (lowCol n i k))
        k v ul rfl (by rw [hsyL]; exact hul)
      have hB := evalCmpNode (synRow G stats) "!=" (synName (uppCol n i k))
        k v uu rfl (by rw [hsyU]; exact huu)
      obtain ⟨c, hc, hbo⟩ := kleeneOr_boolish _ _
        (ordToVal_boolish "!=" ul) (ordToVal_boolish "!=" uu)
      refine ⟨c, ?_, hbo⟩
      rw [eOr, hA, bindOk, hB, bindOk]
      exact hc
    · intro r hr o hro hold
      obtain ⟨ol, ou, hL, hU, rel1, rel2, rel3, rel4, rel5⟩ :=
        bound_cmp_spec cs.min cs.max (r n) v k o (hbndr r hr) hro
      have ho : o ≠ .eq := by
        rcases opHolds_ne_iff.mp hold with h | h <;> simp [h]
      have hA := evalCmpNode (synRow G stats) "!=" (synName (lowCol n i k))
        k v (some ol) rfl (by rw [hsyL]; exact hL)
      have hB := evalCmpNode (synRow G stats) "!=" (synName (uppCol n i k))
        k v (some ou) rfl (by rw [hsyU]; exact hU)
      have hone : (opHolds "!=" ol || opHolds "!=" ou) = true := by
        by_cases hol : ol = .eq
        · have hou : ou ≠ .eq := fun hou => ho (rel5 hol hou)
          rw [opHolds_ne_of_ne hou]
          simp
        · rw [opHolds_ne_of_ne hol]
          simp
      rw [eOr, hA, bindOk, hB, bindOk]
      rw [show ordToVal "!=" (some ol) = .boolV (opHolds "!=" ol) from rfl,
        show ordToVal "!=" (some ou) = .boolV (opHolds "!=" ou) from rfl]
      rw [kleeneOr_bool, hone]
  -- default
  · exact ⟨⟨.boolV true, rfl, .inr ⟨true, rfl⟩⟩, fun r hr o hro hold => rfl⟩


theorem buildBoundCmp_wf (schema : Schema) (op : String) (k : Nat)
    (n : String) (v : DataValue) (V : Expr) (scs : StatColumns)
    (h : buildBoundCmp schema op k n v = .ok (V, scs)) :
    ∀ sc ∈ scs, fieldIndex schema sc.name = some sc.ordinal := by
  unfold buildBoundCmp at h
  rcases hfi : fieldIndex schema n with _ | i
  · rw [hfi] at h
    simp at h
  · rw [hfi] at h
    split at h
    · exact absurd h (by simp)
    rename_i x j heq
    injection heq with hij
    subst hij
    split at h
    all_goals
      (injection h with hp
       injection hp with hV hscs
       subst hscs
       intro sc hsc)
    · simp at hsc
      subst hsc
      exact hfi
    · simp at hsc
      subst hsc
      exact hfi
    · simp at hsc
      subst hsc
      exact hfi
    · simp at hsc
      subst hsc
      exact hfi
    · simp at hsc
      rcases hsc with hsc | hsc <;> subst hsc <;> exact hfi
    · simp at hsc
      rcases hsc with hsc | hsc <;> subst hsc <;> exact hfi
    · exact absurd hsc (by simp)

theorem buildScalar_wf (schema : Schema) (op : String) (args : List Expr)
    (V : Expr) (scs : StatColumns)
    (h : buildScalar schema op args = .ok (V, scs)) :
    ∀ sc ∈ scs, fieldIndex schema sc.name = some sc.ordinal := by
  unfold buildScalar at h
  split at h
  · rename_i op2 args2 m
    rcases hfi : fieldIndex schema m with _ | j
    · rw [hfi] at h
      simp at h
    · rw [hfi] at h
      injection h with hp
      injection hp with hV hscs
      subst hscs
      intro sc hsc
      simp at hsc
      subst hsc
      exact hfi
  · rename_i op2 args2 m
    rcases hfi : fieldIndex schema m with _ | j
    · rw [hfi] at h
      simp at h
    · rw [hfi] at h
      injection h with hp
      injection hp with hV hscs
      subst hscs
      intro sc hsc
      simp at hsc
      subst hsc
      exact hfi
  · injection h with hp
    injection hp with hV hscs
    subst hscs
    intro sc hsc
    exact absurd hsc (by simp)

set_option maxHeartbeats 1000000 in
theorem build_wf_aux (schema : Schema) : ∀ (N : Nat) (P V : Expr)
    (scs : StatColumns), sizeOf P ≤ N →
    build_verifiable_expr schema P = .ok (V, scs) →
    ∀ sc ∈ scs, fieldIndex schema sc.name = some sc.ordinal := by
  intro N
  induction N with
  | zero =>
    intro P V scs hP
    cases P <;> simp_arith at hP
  | succ N ih =>
    intro P V scs hP h
    cases P with
    | column m =>
      injection h with hp
      injection hp with hV hscs
      subst hscs
      intro sc hsc
      exact absurd hsc (by simp)
    | literal v =>
      cases v <;>
        (injection h with hp
         injection hp with hV hscs
         subst hscs
         intro sc hsc
         exact absurd hsc (by simp))
    | unary op e2 =>
      injection h with hp
      injection hp with hV hscs
      subst hscs
      intro sc hsc
      exact absurd hsc (by simp)
    | scalarFn op args => exact buildScalar_wf schema op args V scs h
    | binary op l r =>
      have hszl : sizeOf l ≤ N := by simp_arith at hP; omega
      have hszr : sizeOf r ≤ N := by simp_arith at hP; omega
      rw [build_verifiable_expr.eq_def] at h
      split at h
      case h_1 => simp_all
      case h_2 x l2 r2 heq =>
        injection heq with hop hl hr
        subst hl
        subst hr
        obtain ⟨pl, pr, hbl, hbr, hok⟩ := bind2_ok _ _ _ _ h
        injection hok with hp
        injection hp with hV hscs
        subst hscs
        intro sc hsc
        rcases List.mem_append.mp hsc with hm | hm
        · exact ih l pl.1 pl.2 hszl hbl sc hm
        · exact ih r pr.1 pr.2 hszr hbr sc hm
      case h_3 x l2 r2 heq =>
        injection heq with hop hl hr
        subst hl
        subst hr
        obtain ⟨pl, pr, hbl, hbr, hok⟩ := bind2_ok _ _ _ _ h
        injection hok with hp
        injection hp with hV hscs
        subst hscs
        intro sc hsc
        rcases List.mem_append.mp hsc with hm | hm
        · exact ih l pl.1 pl.2 hszl hbl sc hm
        · exact ih r pr.1 pr.2 hszr hbr sc hm
      case h_10 => simp_all
      case h_11 =>
        injection h with hp
        injection hp with hV hscs
        subst hscs
        intro sc hsc
        exact absurd hsc (by simp)
      all_goals
        (rename_i x l2 r2 heq
         injection heq with hop hl hr
         subst hl
         subst hr
         unfold buildCmp at h
         split at h
         · exact buildBoundCmp_wf _ _ _ _ _ _ _ h
         · (split at h
            · exact buildBoundCmp_wf _ _ _ _ _ _ _ h
            · (injection h with hp
               injection hp with hV hscs
               subst hscs
               intro sc hsc
               exact absurd hsc (by simp))))

theorem boundShape_shape : ∀ (N : Nat) (x : Expr), sizeOf x ≤ N →
    ∀ k n, boundShape x = some (k, n) → x = wrapNegs k (.column n) := by
  intro N
  induction N with
  | zero =>
    intro x hx
    cases x <;> simp_arith at hx
  | succ N ih =>
    intro x hx k n h
    cases x with
    | column m =>
      simp [boundShape] at h
      rw [h.2.symm, h.1.symm]
      rfl
    | unary op e2 =>
      rw [boundShape.eq_def] at h
      split at h
      · simp_all
      · rename_i x2 e3 heq
        injection heq with hop he
        subst he
        subst hop
        rcases hb : boundShape e2 with _ | ⟨k2, n2⟩
        · rw [hb] at h
          simp at h
        · rw [hb] at h
          simp at h
          have hsz : sizeOf e2 ≤ N := by simp_arith at hx; omega
          have hm := ih e2 hsz k2 n2 hb
          rw [h.1.symm, h.2.symm, hm]
          rfl
      · simp at h
    | literal v => simp [boundShape] at h
    | binary op l r => simp [boundShape] at h
    | scalarFn op args => simp [boundShape] at h

theorem cmpInt_swap (a b : Int) : cmpInt b a = (cmpInt a b).swap := by
  rcases lt_trichotomy a b with h | h | h
  · rw [cmpInt_lt_iff.mpr h, cmpInt_gt_iff.mpr h]
    rfl
  · subst h
    rw [cmpInt_eq_iff.mpr rfl]
    rfl
  · rw [cmpInt_gt_iff.mpr h, cmpInt_lt_iff.mpr h]
    rfl

theorem cmpStr_swap (a b : String) : cmpStr b a = (cmpStr a b).swap := by
  rcases lt_trichotomy a b with h | h | h
  · rw [cmpStr_lt_iff.mpr h, cmpStr_gt_iff.mpr h]
    rfl
  · subst h
    rw [cmpStr_eq_iff.mpr rfl]
    rfl
  · rw [cmpStr_gt_iff.mpr h, cmpStr_lt_iff.mpr h]
    rfl

theorem cmpVal_swap (a b : DataValue) :
    cmpVal b a = (cmpVal a b).map (fun u => u.map Ordering.swap) := by
  cases a with
  | null => cases b <;> rfl
  | intV ka va =>
    cases b with
    | null => rfl
    | intV kb vb =>
      show Except.ok (some (cmpInt vb va)) =
        Except.ok (some ((cmpInt va vb).swap))
      rw [cmpInt_swap]
    | strV s => rfl
    | boolV c => rfl
  | strV sa =>
    cases b with
    | null => rfl
    | strV sb =>
      show Except.ok (some (cmpStr sb sa)) =
        Except.ok (some ((cmpStr sa sb).swap))
      rw [cmpStr_swap]
    | intV kb vb => rfl
    | boolV c => rfl
  | boolV ca => cases b <;> rfl

theorem opHolds_mirror (op : String) (hop : op ∈ cmpOps) (o : Ordering) :
    opHolds (mirrorOp op) o.swap = opHolds op o := by
  simp [cmpOps] at hop
  rcases hop with h | h | h | h | h | h <;> subst h <;> cases o <;> rfl

theorem ordToVal_true_inv (op : String) (u : Option Ordering)
    (h : ordToVal op u = .boolV true) :
    ∃ o, u = some o ∧ opHolds op o = true := by
  cases u with
  | none => exact absurd h (by simp [ordToVal])
  | some o =>
    refine ⟨o, rfl, ?_⟩
    injection h

theorem rowCmp_direct (oracle : Oracle) (r0 : Row) (op : String) (k : Nat)
    (n : String) (v : DataValue) (w : DataValue)
    (hunf : evalExpr oracle r0
        (.binary op (wrapNegs k (.column n)) (.literal v)) =
      (evalExpr oracle r0 (wrapNegs k (.column n))) >>= fun a =>
        (evalExpr oracle r0 (.literal v)) >>= fun b =>
          (cmpVal a b) >>= fun c => .ok (ordToVal op c))
    (h : evalExpr oracle r0
        (.binary op (wrapNegs k (.column n)) (.literal v)) = .ok w) :
    ∃ u, (applyNegs k (r0 n)) >>= (fun va => cmpVal va v) = .ok u ∧
      w = ordToVal op u := by
  rw [hunf, evalExpr_wrapNegs] at h
  rw [show evalExpr oracle r0 (.column n) = .ok (r0 n) from rfl, bindOk] at h
  rw [show evalExpr oracle r0 (.literal v) = .ok v from rfl] at h
  simp only [bindOk] at h
  rcases hx : applyNegs k (r0 n) with ex | va
  · rw [hx, bindErr] at h
    exact absurd h (by simp)
  · rw [hx, bindOk] at h
    rcases hc : cmpVal va v with ec | u
    · rw [hc, bindErr] at h
      exact absurd h (by simp)
    · rw [hc, bindOk] at h
      injection h with h2
      exact ⟨u, by rw [bindOk, hc], h2.symm⟩

theorem rowCmp_mirror (oracle : Oracle) (r0 : Row) (op : String) (k : Nat)
    (n : String) (v : DataValue) (w : DataValue)
    (hunf : evalExpr oracle r0
        (.binary op (.literal v) (wrapNegs k (.column n))) =
      (evalExpr oracle r0 (.literal v)) >>= fun a =>
        (evalExpr oracle r0 (wrapNegs k (.column n))) >>= fun b =>
          (cmpVal a b) >>= fun c => .ok (ordToVal op c))
    (h : evalExpr oracle r0
        (.binary op (.literal v) (wrapNegs k (.column n))) = .ok w) :
    ∃ u, (applyNegs k (r0 n)) >>= (fun va => cmpVal va v) = .ok u ∧
      w = ordToVal op (u.map Ordering.swap) := by
  rw [hunf, evalExpr_wrapNegs] at h
  rw [show evalExpr oracle r0 (.literal v) = .ok v from rfl, bindOk] at h
  rw [show evalExpr oracle r0 (.column n) = .ok (r0 n) from rfl, bindOk] at h
  rcases hx : applyNegs k (r0 n) with ex | vb
  · rw [hx, bindErr] at h
    exact absurd h (by simp)
  · rw [hx, bindOk] at h
    rcases hc : cmpVal v vb with ec | u0
    · rw [hc, bindErr] at h
      exact absurd h (by simp)
    · rw [hc, bindOk] at h
      injection h with h2
      refine ⟨u0.map Ordering.swap, ?_, ?_⟩
      · rw [bindOk, cmpVal_swap v vb, hc]
        rfl
      · rw [h2.symm]
        congr 1
        simp [Option.map_map]
        cases u0 with
        | none => rfl
        | some o => simp

theorem evalChildren_ok {g : DataValue → DataValue → Except EvalErr DataValue}
    (oracle : Oracle) (r0 : Row) (op : String) (l r : Expr) (w : DataValue)
    (hunf : evalExpr oracle r0 (.binary op l r) =
      (evalExpr oracle r0 l) >>= fun a =>
        (evalExpr oracle r0 r) >>= fun b => g a b)
    (h : evalExpr oracle r0 (.binary op l r) = .ok w) :
    ∃ a b, evalExpr oracle r0 l = .ok a ∧ evalExpr oracle r0 r = .ok b ∧
      g a b = .ok w := by
  rw [hunf] at h
  exact bind2_ok _ _ _ _ h

theorem buildBoundCmp_mem (schema : Schema) (op : String) (k : Nat)
    (n : String) (v : DataValue) (V : Expr) (scs : StatColumns) (i : Nat)
    (hop : op ∈ cmpOps) (hfi : fieldIndex schema n = some i)
    (h : buildBoundCmp schema op k n v = .ok (V, scs)) :
    ∃ sc, sc ∈ scs ∧ sc.ordinal = i := by
  simp [cmpOps] at hop
  unfold buildBoundCmp at h
  rw [hfi] at h
  split at h
  · exact absurd h (by simp)
  rename_i x j heq
  injection heq with hij
  subst hij
  rcases hop with h1 | h1 | h1 | h1 | h1 | h1 <;> subst h1 <;>
    (injection h with hp
     injection hp with hV hscs
     subst hscs)
  · exact ⟨lowCol n i k, by simp, rfl⟩
  · exact ⟨lowCol n i k, by simp, rfl⟩
  · exact ⟨uppCol n i k, by simp, rfl⟩
  · exact ⟨uppCol n i k, by simp, rfl⟩
  · exact ⟨lowCol n i k, by simp, rfl⟩
  · exact ⟨lowCol n i k, by simp, rfl⟩


theorem swap_swap (o : Ordering) : o.swap.swap = o := by
  cases o <;> rfl


theorem cmpArm_direct (schema : Schema) (stats : BlockStats)
    (block : List Row) (G : StatColumns) (oracle : Oracle) (op : String)
    (hop : op ∈ cmpOps) (hc : StatsConsistent schema stats block)
    (hG : ∀ sc ∈ G, fieldIndex schema sc.name = some sc.ordinal)
    (hpres : ∀ sc ∈ G, (stats sc.ordinal).isSome = true)
    (k : Nat) (n2 : String) (v : DataValue) (V : Expr) (scs : StatColumns)
    (hb : buildBoundCmp schema op k n2 v = .ok (V, scs))
    (hsub : ∀ sc ∈ scs, sc ∈ G)
    (hBE : BlockEvalOk oracle
      (.binary op (wrapNegs k (.column n2)) (.literal v)) block)
    (hunf : ∀ (r0 : Row), evalExpr oracle r0
        (.binary op (wrapNegs k (.column n2)) (.literal v)) =
      (evalExpr oracle r0 (wrapNegs k (.column n2))) >>= fun a =>
        (evalExpr oracle r0 (.literal v)) >>= fun b =>
          (cmpVal a b) >>= fun c => .ok (ordToVal op c)) :
    (∃ w, evalExpr noOracle (synRow G stats) V = .ok w ∧ IsBoolish w) ∧
    (∀ r0 ∈ block, RowSatisfies oracle
        (.binary op (wrapNegs k (.column n2)) (.literal v)) r0 →
      evalExpr noOracle (synRow G stats) V = .ok (.boolV true)) := by
  rcases hfi : fieldIndex schema n2 with _ | i
  · unfold buildBoundCmp at hb
    rw [hfi] at hb
    simp at hb
  · obtain ⟨sc0, hsc0, hord⟩ :=
      buildBoundCmp_mem schema op k n2 v V scs i hop hfi hb
    have hsome := hpres _ (hsub _ hsc0)
    rw [hord, Option.isSome_iff_exists] at hsome
    obtain ⟨cs, hcs⟩ := hsome
    obtain ⟨fld, hfld, hname⟩ := fieldIndex_spec schema n2 i hfi
    obtain ⟨hcons1, hcons2, hcons3⟩ := hc i fld cs hfld hcs
    have hrowsOk : ∀ r0 ∈ block, ∃ u,
        (applyNegs k (r0 n2)) >>= (fun va => cmpVal va v) = .ok u := by
      intro r0 hr0
      obtain ⟨w, hw⟩ := hBE r0 hr0
      obtain ⟨u, hu, hw2⟩ := rowCmp_direct oracle r0 op k n2 v w (hunf r0) hw
      exact ⟨u, hu⟩
    obtain ⟨htot, hsound⟩ := buildBoundCmp_core schema stats block G op k n2
      v V scs i fld cs hb hsub hG hfi hfld hname hcs hcons1 hcons3 hrowsOk
    refine ⟨htot, ?_⟩
    intro r0 hr0 hs
    have hs2 : evalExpr oracle r0
        (.binary op (wrapNegs k (.column n2)) (.literal v)) =
        .ok (.boolV true) := hs
    obtain ⟨u, hu, hw2⟩ := rowCmp_direct oracle r0 op k n2 v _ (hunf r0) hs2
    obtain ⟨o, ho1, ho2⟩ := ordToVal_true_inv _ u hw2.symm
    subst ho1
    exact hsound r0 hr0 o hu ho2

theorem cmpArm_mirror (schema : Schema) (stats : BlockStats)
    (block : List Row) (G : StatColumns) (oracle : Oracle) (op : String)
    (hop : op ∈ cmpOps) (hmop : mirrorOp op ∈ cmpOps)
    (hc : StatsConsistent schema stats block)
    (hG : ∀ sc ∈ G, fieldIndex schema sc.name = some sc.ordinal)
    (hpres : ∀ sc ∈ G, (stats sc.ordinal).isSome = true)
    (k : Nat) (n2 : String) (v : DataValue) (V : Expr) (scs : StatColumns)
    (hb : buildBoundCmp schema (mirrorOp op) k n2 v = .ok (V, scs))
    (hsub : ∀ sc ∈ scs, sc ∈ G)
    (hBE : BlockEvalOk oracle
      (.binary op (.literal v) (wrapNegs k (.column n2))) block)
    (hunf : ∀ (r0 : Row), evalExpr oracle r0
        (.binary op (.literal v) (wrapNegs k (.column n2))) =
      (evalExpr oracle r0 (.literal v)) >>= fun a =>
        (evalExpr oracle r0 (wrapNegs k (.column n2))) >>= fun b =>
          (cmpVal a b) >>= fun c => .ok (ordToVal op c)) :
    (∃ w, evalExpr noOracle (synRow G stats) V = .ok w ∧ IsBoolish w) ∧
    (∀ r0 ∈ block, RowSatisfies oracle
        (.binary op (.literal v) (wrapNegs k (.column n2))) r0 →
      evalExpr noOracle (synRow G stats) V = .ok (.boolV true)) := by
  rcases hfi : fieldIndex schema n2 with _ | i
  · unfold buildBoundCmp at hb
    rw [hfi] at hb
    simp at hb
  · obtain ⟨sc0, hsc0, hord⟩ :=
      buildBoundCmp_mem schema (mirrorOp op) k n2 v V scs i hmop hfi hb
    have hsome := hpres _ (hsub _ hsc0)
    rw [hord, Option.isSome_iff_exists] at hsome
    obtain ⟨cs, hcs⟩ := hsome
    obtain ⟨fld, hfld, hname⟩ := fieldIndex_spec schema n2 i hfi
    obtain ⟨hcons1, hcons2, hcons3⟩ := hc i fld cs hfld hcs
    have hrowsOk : ∀ r0 ∈ block, ∃ u,
        (applyNegs k (r0 n2)) >>= (fun va => cmpVal va v) = .ok u := by
      intro r0 hr0
      obtain ⟨w, hw⟩ := hBE r0 hr0
      obtain ⟨u, hu, hw2⟩ := rowCmp_mirror oracle r0 op k n2 v w (hunf r0) hw
      exact ⟨u, hu⟩
    obtain ⟨htot, hsound⟩ := buildBoundCmp_core schema stats block G
      (mirrorOp op) k n2 v V scs i fld cs hb hsub hG hfi hfld hname hcs
      hcons1 hcons3 hrowsOk
    refine ⟨htot, ?_⟩
    intro r0 hr0 hs
    have hs2 : evalExpr oracle r0
        (.binary op (.literal v) (wrapNegs k (.column n2))) =
        .ok (.boolV true) := hs
    obtain ⟨u, hu, hw2⟩ := rowCmp_mirror oracle r0 op k n2 v _ (hunf r0) hs2
    obtain ⟨o0, ho1, ho2⟩ := ordToVal_true_inv _ _ hw2.symm
    rcases u with _ | o2
    · simp at ho1
    · simp at ho1
      subst ho1
      have hm := opHolds_mirror op hop (o2.swap)
      rw [swap_swap] at hm
      exact hsound r0 hr0 o2 hu (hm.trans ho2)


set_option maxHeartbeats 4000000 in
theorem build_sound_aux (schema : Schema) (stats : BlockStats)
    (block : List Row) (G : StatColumns) (oracle : Oracle)
    (hc : StatsConsistent schema stats block)
    (hG : ∀ sc ∈ G, fieldIndex schema sc.name = some sc.ordinal)
    (hpres : ∀ sc ∈ G, (stats sc.ordinal).isSome = true) :
    ∀ (N : Nat) (P V : Expr) (scs : StatColumns), sizeOf P ≤ N →
    build_verifiable_expr schema P = .ok (V, scs) →
    (∀ sc ∈ scs, sc ∈ G) →
    BlockEvalOk oracle P block →
    (∃ w, evalExpr noOracle (synRow G stats) V = .ok w ∧ IsBoolish w) ∧
    (∀ r ∈ block, RowSatisfies oracle P r →
      evalExpr noOracle (synRow G stats) V = .ok (.boolV true)) := by
  intro N
  induction N with
  | zero =>
    intro P V scs hP
    cases P <;> simp_arith at hP
  | succ N ih =>
    intro P V scs hP hb hsub hBE
    cases P with
    | column m =>
      injection hb with hp
      injection hp with hV hscs
      subst hV
      exact ⟨⟨.boolV true, rfl, .inr ⟨true, rfl⟩⟩, fun r hr hs => rfl⟩
    | literal v =>
      cases v with
      | null =>
        injection hb with hp
        injection hp with hV hscs
        subst hV
        refine ⟨⟨.boolV false, rfl, .inr ⟨false, rfl⟩⟩, ?_⟩
        intro r hr hs
        have hs2 : Except.ok DataValue.null =
            Except.ok (DataValue.boolV true) := hs
        simp at hs2
      | intV w a =>
        injection hb with hp
        injection hp with hV hscs
        subst hV
        exact ⟨⟨.boolV true, rfl, .inr ⟨true, rfl⟩⟩, fun r hr hs => rfl⟩
      | strV s =>
        injection hb with hp
        injection hp with hV hscs
        subst hV
        exact ⟨⟨.boolV true, rfl, .inr ⟨true, rfl⟩⟩, fun r hr hs => rfl⟩
      | boolV b =>
        injection hb with hp
        injection hp with hV hscs
        subst hV
        exact ⟨⟨.boolV true, rfl, .inr ⟨true, rfl⟩⟩, fun r hr hs => rfl⟩
    | unary op e2 =>
      injection hb with hp
      injection hp with hV hscs
      subst hV
      exact ⟨⟨.boolV true, rfl, .inr ⟨true, rfl⟩⟩, fun r hr hs => rfl⟩
    | scalarFn op args =>
      have hb2 : buildScalar schema op args = .ok (V, scs) := hb
      unfold buildScalar at hb2
      split at hb2
      · rename_i op2 args2 n2
        rcases hfi : fieldIndex schema n2 with _ | i
        · rw [hfi] at hb2
          simp at hb2
        · rw [hfi] at hb2
          injection hb2 with hp
          injection hp with hV hscs
          subst hV
          subst hscs
          have hmem : (⟨n2, i, .snulls⟩ : StatCol) ∈ G := hsub _ (by simp)
          have hsome := hpres _ hmem
          rw [Option.isSome_iff_exists] at hsome
          obtain ⟨cs, hcs⟩ := hsome
          have hsy : synRow G stats (synName ⟨n2, i, .snulls⟩) =
              .intV .i64 cs.null_count := by
            rw [synRow_eq schema G stats hG _ hmem]
            unfold statVal
            simp [hcs]
          have heval : evalExpr noOracle (synRow G stats)
              (.binary ">" (.column (synName ⟨n2, i, .snulls⟩))
                (.literal (.intV .i64 0))) =
              .ok (ordToVal ">" (some (cmpInt cs.null_count 0))) := by
            have e1 : evalExpr noOracle (synRow G stats)
                (.binary ">" (.column (synName ⟨n2, i, .snulls⟩))
                  (.literal (.intV .i64 0))) =
                (Except.ok (synRow G stats (synName ⟨n2, i, .snulls⟩)) :
                  Except EvalErr DataValue) >>= fun a =>
                  (Except.ok (.intV .i64 0) :
                    Except EvalErr DataValue) >>= fun b =>
                    (cmpVal a b) >>= fun c => .ok (ordToVal ">" c) := rfl
            rw [e1, hsy, bindOk, bindOk]
            rfl
          constructor
          · exact ⟨_, heval, ordToVal_boolish _ _⟩
          · intro r hr hs
            have hs2 : Except.ok (.boolV (r n2 matches .null)) =
                Except.ok (DataValue.boolV true) := hs
            injection hs2 with hs3
            injection hs3 with hs4
            have hnull : r n2 = .null := by
              rcases hrn : r n2 with _ | _ | _ | _
              · rfl
              all_goals (rw [hrn] at hs4; simp at hs4)
            obtain ⟨fld, hfld, hname⟩ := fieldIndex_spec schema n2 i hfi
            have hpos : 0 < cs.null_count :=
              (hc i fld cs hfld hcs).2.1 ⟨r, hr, by rw [hname]; exact hnull⟩
            rw [heval, ordToVal_true _ _ (opHolds_gt_iff.mpr
              (cmpInt_gt_iff.mpr (by exact_mod_cast hpos)))]
      · rename_i op2 args2 n2
        rcases hfi : fieldIndex schema n2 with _ | i
        · rw [hfi] at hb2
          simp at hb2
        · rw [hfi] at hb2
          injection hb2 with hp
          injection hp with hV hscs
          subst hV
          subst hscs
          have hmem : (⟨n2, i, .smin⟩ : StatCol) ∈ G := hsub _ (by simp)
          have hsome := hpres _ hmem
          rw [Option.isSome_iff_exists] at hsome
          obtain ⟨cs, hcs⟩ := hsome
          have hsy : synRow G stats (synName ⟨n2, i, .smin⟩) = cs.min := by
            rw [synRow_eq schema G stats hG _ hmem]
            unfold statVal
            simp [hcs]
          constructor
          · exact ⟨_, rfl, .inr ⟨_, rfl⟩⟩
          · intro r hr hs
            have hs2 : Except.ok (.boolV !(r n2 matches .null)) =
                Except.ok (DataValue.boolV true) := hs
            injection hs2 with hs3
            injection hs3 with hs4
            have hne : r n2 ≠ .null := by
              intro hh
              rw [hh] at hs4
              simp at hs4
            obtain ⟨fld, hfld, hname⟩ := fieldIndex_spec schema n2 i hfi
            have hcl := ((hc i fld cs hfld hcs).1 r hr
              (by rw [hname]; exact hne)).1
            rw [hname] at hcl
            have hmn : cs.min ≠ .null := cmpLE_not_null_left hcl
            show Except.ok
              (.boolV !(synRow G stats (synName ⟨n2, i, .smin⟩) matches .null))
              = Except.ok (DataValue.boolV true)
            rw [hsy]
            rcases hmv : cs.min with _ | _ | _ | _
            · exact absurd hmv hmn
            all_goals rfl
      · injection hb2 with hp
        injection hp with hV hscs
        subst hV
        exact ⟨⟨.boolV true, rfl, .inr ⟨true, rfl⟩⟩, fun r hr hs => rfl⟩
    | binary op l r =>
      have hszl : sizeOf l ≤ N := by simp_arith at hP; omega
      have hszr : sizeOf r ≤ N := by simp_arith at hP; omega
      rw [build_verifiable_expr.eq_def] at hb
      split at hb
      case h_1 => simp_all
      case h_2 x l2 r2 heq =>
        injection heq with hop hl hr
        subst hop
        subst hl
        subst hr
        obtain ⟨pl, pr, hbl, hbr, hok⟩ := bind2_ok _ _ _ _ hb
        injection hok with hp
        injection hp with hV hscs
        subst hV
        subst hscs
        have hsubl : ∀ sc ∈ pl.2, sc ∈ G :=
          fun sc hm => hsub sc (List.mem_append.mpr (.inl hm))
        have hsubr : ∀ sc ∈ pr.2, sc ∈ G :=
          fun sc hm => hsub sc (List.mem_append.mpr (.inr hm))
        have hBEl : BlockEvalOk oracle l block := by
          intro r0 hr0
          obtain ⟨w, hw⟩ := hBE r0 hr0
          obtain ⟨a, b2, ha, hb3, hg⟩ :=
            evalChildren_ok oracle r0 "and" l r w rfl hw
          exact ⟨a, ha⟩
        have hBEr : BlockEvalOk oracle r block := by
          intro r0 hr0
          obtain ⟨w, hw⟩ := hBE r0 hr0
          obtain ⟨a, b2, ha, hb3, hg⟩ :=
            evalChildren_ok oracle r0 "and" l r w rfl hw
          exact ⟨b2, hb3⟩
        obtain ⟨⟨wl, hwl, hbl2⟩, hsl⟩ :=
          ih l pl.1 pl.2 hszl (by rw [hbl]) hsubl hBEl
        obtain ⟨⟨wr, hwr, hbr2⟩, hsr⟩ :=
          ih r pr.1 pr.2 hszr (by rw [hbr]) hsubr hBEr
        have eA : evalExpr noOracle (synRow G stats)
            (.binary "and" pl.1 pr.1) =
            (evalExpr noOracle (synRow G stats) pl.1) >>= fun a =>
            (evalExpr noOracle (synRow G stats) pr.1) >>= fun b =>
            kleeneAnd a b := rfl
        constructor
        · obtain ⟨c, hcv, hcb⟩ := kleeneAnd_boolish wl wr hbl2 hbr2
          exact ⟨c, by rw [eA, hwl, bindOk, hwr, bindOk]; exact hcv, hcb⟩
        · intro r0 hr0 hs
          have hs2 : evalExpr oracle r0 (.binary "and" l r) =
              .ok (.boolV true) := hs
          obtain ⟨a, b2, ha, hb3, hg⟩ :=
            evalChildren_ok oracle r0 "and" l r _ rfl hs2
          obtain ⟨ha2, hb4⟩ := kleeneAnd_true a b2 hg
          subst ha2
          subst hb4
          have h1 := hsl r0 hr0 ha
          have h2 := hsr r0 hr0 hb3
          rw [eA, h1, bindOk, h2, bindOk]
          rfl
      case h_3 x l2 r2 heq =>
        injection heq with hop hl hr
        subst hop
        subst hl
        subst hr
        obtain ⟨pl, pr, hbl, hbr, hok⟩ := bind2_ok _ _ _ _ hb
        injection hok with hp
        injection hp with hV hscs
        subst hV
        subst hscs
        have hsubl : ∀ sc ∈ pl.2, sc ∈ G :=
          fun sc hm => hsub sc (List.mem_append.mpr (.inl hm))
        have hsubr : ∀ sc ∈ pr.2, sc ∈ G :=
          fun sc hm => hsub sc (List.mem_append.mpr (.inr hm))
        have hBEl : BlockEvalOk oracle l block := by
          intro r0 hr0
          obtain ⟨w, hw⟩ := hBE r0 hr0
          obtain ⟨a, b2, ha, hb3, hg⟩ :=
            evalChildren_ok oracle r0 "or" l r w rfl hw
          exact ⟨a, ha⟩
        have hBEr : BlockEvalOk oracle r block := by
          intro r0 hr0
          obtain ⟨w, hw⟩ := hBE r0 hr0
          obtain ⟨a, b2, ha, hb3, hg⟩ :=
            evalChildren_ok oracle r0 "or" l r w rfl hw
          exact ⟨b2, hb3⟩
        obtain ⟨⟨wl, hwl, hbl2⟩, hsl⟩ :=
          ih l pl.1 pl.2 hszl (by rw [hbl]) hsubl hBEl
        obtain ⟨⟨wr, hwr, hbr2⟩, hsr⟩ :=
          ih r pr.1 pr.2 hszr (by rw [hbr]) hsubr hBEr
        have eA : evalExpr noOracle (synRow G stats)
            (.binary "or" pl.1 pr.1) =
            (evalExpr noOracle (synRow G stats) pl.1) >>= fun a =>
            (evalExpr noOracle (synRow G stats) pr.1) >>= fun b =>
            kleeneOr a b := rfl
        constructor
        · obtain ⟨c, hcv, hcb⟩ := kleeneOr_boolish wl wr hbl2 hbr2
          exact ⟨c, by rw [eA, hwl, bindOk, hwr, bindOk]; exact hcv, hcb⟩
        · intro r0 hr0 hs
          have hs2 : evalExpr oracle r0 (.binary "or" l r) =
              .ok (.boolV true) := hs
          obtain ⟨a, b2, ha, hb3, hg⟩ :=
            evalChildren_ok oracle r0 "or" l r _ rfl hs2
          rcases kleeneOr_true a b2 hg with hcase | hcase
          · subst hcase
            have h1 := hsl r0 hr0 ha
            rw [eA, h1, bindOk, hwr, bindOk]
            exact kleeneOr_true_left wr hbr2
          · subst hcase
            have h2 := hsr r0 hr0 hb3
            rw [eA, hwl, bindOk, h2, bindOk]
            exact kleeneOr_true_right wl hbl2
      case h_10 => simp_all
      case h_11 =>
        injection hb with hp
        injection hp with hV hscs
        subst hV
        exact ⟨⟨.boolV true, rfl, .inr ⟨true, rfl⟩⟩, fun r0 hr0 hs => rfl⟩
      case h_4 x l2 r2 heq =>
        injection heq with hop hl hr
        subst hop
        subst hl
        subst hr
        unfold buildCmp at hb
        split at hb
        · rename_i x2 r3 k n2 v heq2
          have hshape := boundShape_shape (sizeOf l) l le_rfl k n2 heq2
          subst hshape
          exact cmpArm_direct schema stats block G oracle "<" (by decide)
            hc hG hpres k n2 v V scs hb hsub hBE (fun r0 => rfl)
        · split at hb
          · rename_i r2b x2 r3 l2b x1 v k n2 heq2 xf
            have hshape := boundShape_shape (sizeOf r2b) r2b le_rfl k n2 heq2
            subst hshape
            exact cmpArm_mirror schema stats block G oracle "<" (by decide)
              (by decide) hc hG hpres k n2 v V scs hb hsub hBE (fun r0 => rfl)
          · injection hb with hp
            injection hp with hV hscs
            subst hV
            exact ⟨⟨.boolV true, rfl, .inr ⟨true, rfl⟩⟩,
              fun r0 hr0 hs => rfl⟩
      case h_5 x l2 r2 heq =>
        injection heq with hop hl hr
        subst hop
        subst hl
        subst hr
        unfold buildCmp at hb
        split at hb
        · rename_i x2 r3 k n2 v heq2
          have hshape := boundShape_shape (sizeOf l) l le_rfl k n2 heq2
          subst hshape
          exact cmpArm_direct schema stats block G oracle "<=" (by decide)
            hc hG hpres k n2 v V scs hb hsub hBE (fun r0 => rfl)
        · split at hb
          · rename_i r2b x2 r3 l2b x1 v k n2 heq2 xf
            have hshape := boundShape_shape (sizeOf r2b) r2b le_rfl k n2 heq2
            subst hshape
            exact cmpArm_mirror schema stats block G oracle "<=" (by decide)
              (by decide) hc hG hpres k n2 v V scs hb hsub hBE (fun r0 => rfl)
          · injection hb with hp
            injection hp with hV hscs
            subst hV
            exact ⟨⟨.boolV true, rfl, .inr ⟨true, rfl⟩⟩,
              fun r0 hr0 hs => rfl⟩
      case h_6 x l2 r2 heq =>
        injection heq with hop hl hr
        subst hop
        subst hl
        subst hr
        unfold buildCmp at hb
        split at hb
        · rename_i x2 r3 k n2 v heq2
          have hshape := boundShape_shape (sizeOf l) l le_rfl k n2 heq2
          subst hshape
          exact cmpArm_direct schema stats block G oracle ">" (by decide)
            hc hG hpres k n2 v V scs hb hsub hBE (fun r0 => rfl)
        · split at hb
          · rename_i r2b x2 r3 l2b x1 v k n2 heq2 xf
            have hshape := boundShape_shape (sizeOf r2b) r2b le_rfl k n2 heq2
            subst hshape
            exact cmpArm_mirror schema stats block G oracle ">" (by decide)
              (by decide) hc hG hpres k n2 v V scs hb hsub hBE (fun r0 => rfl)
          · injection hb with hp
            injection hp with hV hscs
            subst hV
            exact ⟨⟨.boolV true, rfl, .inr ⟨true, rfl⟩⟩,
              fun r0 hr0 hs => rfl⟩
      case h_7 x l2 r2 heq =>
        injection heq with hop hl hr
        subst hop
        subst hl
        subst hr
        unfold buildCmp at hb
        split at hb
        · rename_i x2 r3 k n2 v heq2
          have hshape := boundShape_shape (sizeOf l) l le_rfl k n2 heq2
          subst hshape
          exact cmpArm_direct schema stats block G oracle ">=" (by decide)
            hc hG hpres k n2 v V scs hb hsub hBE (fun r0 => rfl)
        · split at hb
          · rename_i r2b x2 r3 l2b x1 v k n2 heq2 xf
            have hshape := boundShape_shape (sizeOf r2b) r2b le_rfl k n2 heq2
            subst hshape
            exact cmpArm_mirror schema stats block G oracle ">=" (by decide)
              (by decide) hc hG hpres k n2 v V scs hb hsub hBE (fun r0 => rfl)
          · injection hb with hp
            injection hp with hV hscs
            subst hV
            exact ⟨⟨.boolV true, rfl, .inr ⟨true, rfl⟩⟩,
              fun r0 hr0 hs => rfl⟩
      case h_8 x l2 r2 heq =>
        injection heq with hop hl hr
        subst hop
        subst hl
        subst hr
        unfold buildCmp at hb
        split at hb
        · rename_i x2 r3 k n2 v heq2
          have hshape := boundShape_shape (sizeOf l) l le_rfl k n2 heq2
          subst hshape
          exact cmpArm_direct schema stats block G oracle "=" (by decide)
            hc hG hpres k n2 v V scs hb hsub hBE (fun r0 => rfl)
        · split at hb
          · rename_i r2b x2 r3 l2b x1 v k n2 heq2 xf
            have hshape := boundShape_shape (sizeOf r2b) r2b le_rfl k n2 heq2
            subst hshape
            exact cmpArm_mirror schema stats block G oracle "=" (by decide)
              (by decide) hc hG hpres k n2 v V scs hb hsub hBE (fun r0 => rfl)
          · injection hb with hp
            injection hp with hV hscs
            subst hV
            exact ⟨⟨.boolV true, rfl, .inr ⟨true, rfl⟩⟩,
              fun r0 hr0 hs => rfl⟩
      case h_9 x l2 r2 heq =>
        injection heq with hop hl hr
        subst hop
        subst hl
        subst hr
        unfold buildCmp at hb
        split at hb
        · rename_i x2 r3 k n2 v heq2
          have hshape := boundShape_shape (sizeOf l) l le_rfl k n2 heq2
          subst hshape
          exact cmpArm_direct schema stats block G oracle "!=" (by decide)
            hc hG hpres k n2 v V scs hb hsub hBE (fun r0 => rfl)
        · split at hb
          · rename_i r2b x2 r3 l2b x1 v k n2 heq2 xf
            have hshape := boundShape_shape (sizeOf r2b) r2b le_rfl k n2 heq2
            subst hshape
            exact cmpArm_mirror schema stats block G oracle "!=" (by decide)
              (by decide) hc hG hpres k n2 v V scs hb hsub hBE (fun r0 => rfl)
          · injection hb with hp
            injection hp with hV hscs
            subst hV
            exact ⟨⟨.boolV true, rfl, .inr ⟨true, rfl⟩⟩,
              fun r0 hr0 hs => rfl⟩


theorem eval_unfold (V : Expr) (scs : StatColumns) (stats : BlockStats) :
    RangeFilter.eval ⟨V, scs⟩ stats =
      if scs.all (fun sc => (stats sc.ordinal).isSome) then
        (match evalExpr noOracle (synRow scs stats) V with
         | .ok (.boolV b) => .ok b
         | .ok _ => .ok true
         | .error e => .error e)
      else .ok true := rfl

/-- C1: soundness of skipping — for every predicate, schema, block and
truthful statistics, if the predicate evaluates over every row of the
block without failure and some row satisfies it, then the range filter
built from the predicate evaluates to `true` on the block statistics
(the block is never skipped). -/
theorem range_filter_sound (P : Expr) (schema : Schema) (f : RangeFilter)
    (oracle : Oracle) (block : List Row) (stats : BlockStats) (r : Row)
    (hf : RangeFilter.try_create P schema = .ok f)
    (hcons : StatsConsistent schema stats block)
    (hrows : BlockEvalOk oracle P block)
    (hr : r ∈ block) (hsat : RowSatisfies oracle P r) :
    f.eval stats = .ok true := by
  unfold RangeFilter.try_create at hf
  rcases hbuild : build_verifiable_expr schema P with e | p
  · rw [hbuild] at hf
    simp [Except.map] at hf
  · rw [hbuild] at hf
    have hf2 : Except.ok (⟨p.1, p.2⟩ : RangeFilter) = Except.ok f := hf
    injection hf2 with hf3
    subst hf3
    rw [eval_unfold]
    cases hguard : p.2.all (fun sc => (stats sc.ordinal).isSome) with
    | false =>
      rw [if_neg (by simp)]
    | true =>
      rw [if_pos rfl]
      have hpres : ∀ sc ∈ p.2, (stats sc.ordinal).isSome = true := by
        rw [List.all_eq_true] at hguard
        exact hguard
      have hG := build_wf_aux schema (sizeOf P) P p.1 p.2 le_rfl
        (by rw [hbuild])
      obtain ⟨_, hsound⟩ := build_sound_aux schema stats block p.2 oracle
        hcons hG hpres (sizeOf P) P p.1 p.2 le_rfl (by rw [hbuild])
        (fun sc h => h) hrows
      rw [hsound r hr hsat]

/-- Closed instance of `range_filter_sound`: a one-row block whose single
row has `a = 3`, truthful statistics `a ∈ [1, 3]`, and the predicate
`a < 5` satisfied by the row — the filter evaluates to `true`. -/
theorem range_filter_sound_witness :
    RangeFilter.eval
      ⟨.binary "<" (.column "min_a") (.literal (.intV .i64 5)),
        [⟨"a", 0, .smin⟩]⟩
      (fun n => match n with
        | 0 => some ⟨.intV .i64 1, .intV .i64 3, 0⟩
        | _ => none) = .ok true := by
  refine range_filter_sound
    (.binary "<" (.column "a") (.literal (.intV .i64 5))) testSchema
    ⟨.binary "<" (.column "min_a") (.literal (.intV .i64 5)),
      [⟨"a", 0, .smin⟩]⟩
    noOracle [fun _ => .intV .i64 3]
    (fun n => match n with
      | 0 => some ⟨.intV .i64 1, .intV .i64 3, 0⟩
      | _ => none)
    (fun _ => .intV .i64 3) rfl ?_ ?_ (by simp) rfl
  · intro i fld cs hfld hcs
    rcases i with _ | i2
    · injection hcs with hcs2
      subst hcs2
      have hfld2 : some (⟨"a", .int64, false⟩ : DataField) = some fld := hfld
      injection hfld2 with hfld3
      subst hfld3
      refine ⟨?_, ?_, ?_⟩
      · intro r hr hne
        have hr2 : r = (fun _ => DataValue.intV .i64 3) := by
          simpa using hr
        subst hr2
        exact ⟨Or.inl rfl, Or.inr rfl⟩
      · intro hex
        obtain ⟨r, hr, hnull⟩ := hex
        have hr2 : r = (fun _ => DataValue.intV .i64 3) := by
          simpa using hr
        subst hr2
        simp at hnull
      · intro hall
        have := hall (fun _ => DataValue.intV .i64 3) (by simp)
        simp at this
    · simp at hcs
  · intro r hr
    have hr2 : r = (fun _ => DataValue.intV .i64 3) := by
      simpa using hr
    subst hr2
    exact ⟨.boolV true, rfl⟩

end RangeIndex
